import Mathlib

/-!
# Resource bitmap primitives of `drivers/net/ntnic/include/flow_api.h`

A shallow embedding of the resource-allocation macros of the ntnic flow API
header, and theorems about them.

Conventions of the embedding.

* A `uint8_t` buffer is a `List Nat`; a byte is well formed when it is below 256
  (`bytes_ok`).  Every store goes through `to_uint8_t`, the C conversion to
  `uint8_t`.
* Every macro first copies its index argument into a `size_t`; the argument is an
  `Int` (any C integer expression) and `to_size_t` is the conversion (64-bit
  `size_t`, the only targets of the driver).
* An access outside a buffer or outside `res[]` is undefined behaviour in C; the
  embedding returns `flow_fault.out_of_bounds` there.  A failing `assert` is
  `flow_fault.assert_failed`.
* `NT_LOG` calls only produce log text and are left out.
* The buffers of different pools do not alias: each pool owns its `alloc_bm`.
-/

namespace FlowApi

/-! ## Machine integers -/

/-- Conversion of a C integer value to `uint8_t`: reduction modulo `2^8`. -/
def to_uint8_t (v : Int) : Nat := (v % 256).toNat

/-- Conversion of a C integer value to `size_t`: reduction modulo `2^64`. -/
def to_size_t (v : Int) : Nat := (v % 2 ^ 64).toNat

/-- Ways in which a macro does not run to completion. -/
inductive flow_fault where
  | out_of_bounds
  | assert_failed
  deriving DecidableEq, Repr

/-! ## Data model -/

/-- Embedding of `struct hw_mod_resource_s`: allocation bitmap, reference counter
per element, number of entries. -/
structure hw_mod_resource_s where
  alloc_bm : List Nat
  ref : List Nat
  resource_count : Nat
  deriving DecidableEq, Repr

/-- Embedding of `struct flow_nic_dev`, restricted to its value fields; `res` is
the table `res[RES_COUNT]`, indexed by the resource kind.  The handles, the
backend, the linked lists and the mutex are not read or written by the macros. -/
structure flow_nic_dev where
  adapter_no : Nat
  ports : Nat
  flow_profile : Nat
  res : List hw_mod_resource_s
  flow_unique_id_counter : Nat
  deriving DecidableEq, Repr

/-! ## The bit macros -/

/-- Embedding of the macro `flow_nic_set_bit(arr, x)`:
`arr[x/8] = (uint8_t)(arr[x/8] | (uint8_t)(1 << (x % 8)))`. -/
def flow_nic_set_bit (arr : List Nat) (x : Int) : Except flow_fault (List Nat) :=
  let _temp_x := to_size_t x
  match arr[_temp_x / 8]? with
  | none => .error .out_of_bounds
  | some b =>
    .ok (arr.set (_temp_x / 8)
      (to_uint8_t ((b ||| to_uint8_t ((1 <<< (_temp_x % 8) : Nat) : Int) : Nat) : Int)))

/-- Embedding of the macro `flow_nic_unset_bit(arr, x)`:
`arr[x/8] &= (uint8_t)(~(1 << (x % 8)))`; the complement is taken on the
promoted `int`. -/
def flow_nic_unset_bit (arr : List Nat) (x : Int) : Except flow_fault (List Nat) :=
  let _temp_x := to_size_t x
  match arr[_temp_x / 8]? with
  | none => .error .out_of_bounds
  | some b =>
    .ok (arr.set (_temp_x / 8)
      (to_uint8_t ((b &&& to_uint8_t (~~~ ((1 <<< (_temp_x % 8) : Nat) : Int)) : Nat) : Int)))

/-- Embedding of the macro `flow_nic_is_bit_set(arr, x)`: the value of
`arr[x/8] & (uint8_t)(1 << (x % 8))`. -/
def flow_nic_is_bit_set (arr : List Nat) (x : Int) : Except flow_fault Nat :=
  let _temp_x := to_size_t x
  match arr[_temp_x / 8]? with
  | none => .error .out_of_bounds
  | some b => .ok (b &&& to_uint8_t ((1 <<< (_temp_x % 8) : Nat) : Int))

/-! ## The resource macros -/

/-- Embedding of the macro `flow_nic_mark_resource_used(_ndev, res_type, index)`:
asserts that the bit is clear, then sets it.  A fault is returned together with
the device state at the point where it is raised. -/
def flow_nic_mark_resource_used (_ndev : flow_nic_dev) (res_type : Nat) (index : Int) :
    Except (flow_fault × flow_nic_dev) flow_nic_dev :=
  let _temp_ndev := _ndev
  let _temp_res_type := res_type
  let _temp_index := to_size_t index
  match _temp_ndev.res[_temp_res_type]? with
  | none => .error (.out_of_bounds, _temp_ndev)
  | some r =>
    match flow_nic_is_bit_set r.alloc_bm (_temp_index : Int) with
    | .error e => .error (e, _temp_ndev)
    | .ok v =>
      if v = 0 then
        match flow_nic_set_bit r.alloc_bm (_temp_index : Int) with
        | .error e => .error (e, _temp_ndev)
        | .ok bm =>
          .ok { _temp_ndev with
                res := _temp_ndev.res.set _temp_res_type { r with alloc_bm := bm } }
      else .error (.assert_failed, _temp_ndev)

/-- Embedding of the macro `flow_nic_mark_resource_unused(_ndev, res_type, index)`:
clears the bit; the macro has no `assert`.  A fault is returned together with the
device state at the point where it is raised. -/
def flow_nic_mark_resource_unused (_ndev : flow_nic_dev) (res_type : Nat) (index : Int) :
    Except (flow_fault × flow_nic_dev) flow_nic_dev :=
  let _temp_res_type := res_type
  let _temp_index := to_size_t index
  match _ndev.res[_temp_res_type]? with
  | none => .error (.out_of_bounds, _ndev)
  | some r =>
    match flow_nic_unset_bit r.alloc_bm (_temp_index : Int) with
    | .error e => .error (e, _ndev)
    | .ok bm => .ok { _ndev with res := _ndev.res.set _temp_res_type { r with alloc_bm := bm } }

/-- Embedding of the macro `flow_nic_is_resource_used(_ndev, res_type, index)`:
`!!flow_nic_is_bit_set(...)`.  The macro is an expression; the embedding returns
its value together with the device state left by its evaluation. -/
def flow_nic_is_resource_used (_ndev : flow_nic_dev) (res_type : Nat) (index : Int) :
    Except flow_fault (Nat × flow_nic_dev) :=
  match _ndev.res[res_type]? with
  | none => .error .out_of_bounds
  | some r =>
    match flow_nic_is_bit_set r.alloc_bm index with
    | .error e => .error e
    | .ok v => .ok (if v = 0 then 0 else 1, _ndev)

/-! ## Vocabulary of the statements -/

/-- Every byte of the buffer is a `uint8_t` value. -/
def bytes_ok (arr : List Nat) : Prop := ∀ b ∈ arr, b < 256

/-- Bit `i mod 8` of byte `i / 8` of the buffer; `false` outside the buffer. -/
def bm_bit (arr : List Nat) (i : Nat) : Bool :=
  match arr[i / 8]? with
  | none => false
  | some b => b.testBit (i % 8)

/-- The allocation bitmap of kind `k`, empty when `k` is not a kind of the device. -/
def bm_of (ndev : flow_nic_dev) (k : Nat) : List Nat :=
  match ndev.res[k]? with
  | none => []
  | some r => r.alloc_bm

/-- The pool invariant of the data model: for every entry `e < resource_count`,
`ref[e] > 0` implies that the `alloc_bm` bit of `e` is 1. -/
def pool_inv (r : hw_mod_resource_s) : Prop :=
  ∀ e : Nat, e < r.resource_count →
    ∀ c : Nat, r.ref[e]? = some c → 0 < c → bm_bit r.alloc_bm e = true

/-- The pool invariant on every pool of the device. -/
def dev_inv (ndev : flow_nic_dev) : Prop :=
  ∀ (k : Nat) (r : hw_mod_resource_s), ndev.res[k]? = some r → pool_inv r

/-- Modelled from the spec: the result of `allocate`, "an index or a failure code"
(§2, §4.1, §6: `index | ResourceExhausted`).  The header gives the return type
`int` only. -/
inductive alloc_result where
  | index (i : Nat)
  | ResourceExhausted
  deriving DecidableEq, Repr

/-- Modelled from the spec: the body of `flow_nic_alloc_resource`, which the header
only declares.  Spec §4.1, `allocate(alignment)`: it "scans the bitmap for the
first" free entry "satisfying `index mod alignment == 0`"; "on success: sets the
bit, initializes `ref_count[index] = 0`, returns the index"; it "fails with
`ResourceExhausted` when no aligned free entry exists within `capacity`".  The bit
is set with the header's `flow_nic_mark_resource_used`. -/
def flow_nic_alloc_resource (ndev : flow_nic_dev) (res_type : Nat) (alignment : Nat) :
    Except (flow_fault × flow_nic_dev) (alloc_result × flow_nic_dev) :=
  match ndev.res[res_type]? with
  | none => .error (.out_of_bounds, ndev)
  | some r =>
    match (List.range r.resource_count).find?
        (fun i => decide (i % alignment = 0) && !bm_bit r.alloc_bm i) with
    | none => .ok (.ResourceExhausted, ndev)
    | some i =>
      match flow_nic_mark_resource_used ndev res_type (i : Int) with
      | .error e => .error e
      | .ok ndev1 =>
        match ndev1.res[res_type]? with
        | none => .error (.out_of_bounds, ndev1)
        | some r1 =>
          if i < r1.ref.length then
            .ok (.index i,
              { ndev1 with res := ndev1.res.set res_type { r1 with ref := r1.ref.set i 0 } })
          else .error (.out_of_bounds, ndev1)

/-- Modelled from the spec: the result of `deref`, "new reference count or
failure" (§4.1, §6: `refcount | InvalidIndex | NotAllocated`).  The header gives
the return type `int` only. -/
inductive deref_result where
  | refcount (n : Nat)
  | InvalidIndex
  | NotAllocated
  deriving DecidableEq, Repr

/-- Modelled from the spec: the body of `flow_nic_deref_resource`, which the header
only declares.  Spec §4.1, `deref(index)`: "Precondition: `index < capacity`.
Fails with `InvalidIndex` otherwise.  Requires the entry's bit already set ...;
fails with `NotAllocated` otherwise.  Increments `ref_count[index]`; returns the
new count."  The counter is the `uint32_t` of the header. -/
def flow_nic_deref_resource (ndev : flow_nic_dev) (res_type : Nat) (index : Int) :
    Except (flow_fault × flow_nic_dev) (deref_result × flow_nic_dev) :=
  match ndev.res[res_type]? with
  | none => .error (.out_of_bounds, ndev)
  | some r =>
    if index < 0 ∨ (r.resource_count : Int) ≤ index then .ok (.InvalidIndex, ndev)
    else
      match flow_nic_is_resource_used ndev res_type index with
      | .error e => .error (e, ndev)
      | .ok (v, ndev1) =>
        if v = 0 then .ok (.NotAllocated, ndev1)
        else
          match r.ref[index.toNat]? with
          | none => .error (.out_of_bounds, ndev1)
          | some c =>
            .ok (.refcount ((c + 1) % 2 ^ 32),
              { ndev1 with
                res := ndev1.res.set res_type
                  { r with ref := r.ref.set index.toNat ((c + 1) % 2 ^ 32) } })

/-- Modelled from the spec: the body of `flow_nic_free_resource`, which the header
only declares.  Spec §4.1, `free(index)`: "Precondition: bit currently set.
Violation is ... fenced with an assertion-style fatal check in the reference
design.  If `ref_count[index] > 0`, decrements it and returns without clearing the
bit.  If `ref_count[index] == 0`, clears the bit."  The bit is cleared with the
header's `flow_nic_mark_resource_unused`. -/
def flow_nic_free_resource (ndev : flow_nic_dev) (res_type : Nat) (idx : Int) :
    Except (flow_fault × flow_nic_dev) flow_nic_dev :=
  match ndev.res[res_type]? with
  | none => .error (.out_of_bounds, ndev)
  | some r =>
    match flow_nic_is_resource_used ndev res_type idx with
    | .error e => .error (e, ndev)
    | .ok (v, ndev1) =>
      if v = 0 then .error (.assert_failed, ndev1)
      else if idx < 0 then .error (.out_of_bounds, ndev1)
      else
        match r.ref[idx.toNat]? with
        | none => .error (.out_of_bounds, ndev1)
        | some c =>
          if 0 < c then
            .ok { ndev1 with
                  res := ndev1.res.set res_type { r with ref := r.ref.set idx.toNat (c - 1) } }
          else flow_nic_mark_resource_unused ndev1 res_type idx

/-- `n` successive calls of `flow_nic_deref_resource` on one index, each of which
has to return a reference count. -/
def deref_times (res_type : Nat) (index : Int) :
    Nat → flow_nic_dev → Except (flow_fault × flow_nic_dev) flow_nic_dev
  | 0, ndev => .ok ndev
  | n + 1, ndev =>
    match flow_nic_deref_resource ndev res_type index with
    | .error e => .error e
    | .ok (.refcount _, ndev1) => deref_times res_type index n ndev1
    | .ok (_, ndev1) => .error (.assert_failed, ndev1)

/-- `n` successive calls of `flow_nic_free_resource` on one index. -/
def free_times (res_type : Nat) (idx : Int) :
    Nat → flow_nic_dev → Except (flow_fault × flow_nic_dev) flow_nic_dev
  | 0, ndev => .ok ndev
  | n + 1, ndev =>
    match flow_nic_free_resource ndev res_type idx with
    | .error e => .error e
    | .ok ndev1 => free_times res_type idx n ndev1

/-- The allocation bit and the reference counter of entry `i` of kind `k`, when
`i` is below the capacity and inside both tables. -/
def entry_state (ndev : flow_nic_dev) (k i : Nat) : Option (Bool × Nat) :=
  match ndev.res[k]? with
  | none => none
  | some r =>
    if i < r.resource_count then
      match r.alloc_bm[i / 8]?, r.ref[i]? with
      | some b, some c => some (b.testBit (i % 8), c)
      | _, _ => none
    else none

/-- The number of entries `j < N` of kind `k` on which `flow_nic_is_resource_used`
returns 1. -/
def used_count (ndev : flow_nic_dev) (k N : Nat) : Nat :=
  (List.range N).countP (fun (j : Nat) =>
    match flow_nic_is_resource_used ndev k (j : Int) with
    | .ok (1, _) => true
    | _ => false)

/-- One bitmap operation of the header on an index. -/
inductive bm_op where
  | mark_used (i : Nat)
  | mark_unused (i : Nat)
  deriving DecidableEq, Repr

/-- Runs one bitmap operation on kind `k`. -/
def apply_op (k : Nat) (ndev : flow_nic_dev) :
    bm_op → Except (flow_fault × flow_nic_dev) flow_nic_dev
  | .mark_used i => flow_nic_mark_resource_used ndev k (i : Int)
  | .mark_unused i => flow_nic_mark_resource_unused ndev k (i : Int)

/-- Runs a sequence of bitmap operations on kind `k`, stopping at the first fault. -/
def apply_ops (k : Nat) :
    flow_nic_dev → List bm_op → Except (flow_fault × flow_nic_dev) flow_nic_dev
  | ndev, [] => .ok ndev
  | ndev, op :: ops =>
    match apply_op k ndev op with
    | .error e => .error e
    | .ok ndev1 => apply_ops k ndev1 ops

/-- Either of the two bit-writing macros: `flow_nic_set_bit` when `set_it` is
true, `flow_nic_unset_bit` otherwise. -/
def flow_nic_write_bit (set_it : Bool) (arr : List Nat) (x : Int) :
    Except flow_fault (List Nat) :=
  if set_it then flow_nic_set_bit arr x else flow_nic_unset_bit arr x

/-- A device with the given pools and all other fields zero. -/
def dev_of_pools (pools : List hw_mod_resource_s) : flow_nic_dev :=
  { adapter_no := 0, ports := 0, flow_profile := 0, res := pools,
    flow_unique_id_counter := 0 }

end FlowApi

namespace FlowApi

/-! ## Arithmetic of the conversions and masks -/

theorem to_uint8_t_natCast (n : Nat) : to_uint8_t (n : Int) = n % 256 := by
  unfold to_uint8_t
  omega

theorem to_uint8_t_lt (v : Int) : to_uint8_t v < 256 := by
  unfold to_uint8_t
  omega

theorem to_size_t_lt (v : Int) : to_size_t v < 2 ^ 64 := by
  unfold to_size_t
  omega

theorem to_size_t_natCast (n : Nat) (h : n < 2 ^ 64) : to_size_t (n : Int) = n := by
  unfold to_size_t
  omega

theorem to_size_t_idem (v : Int) : to_size_t ((to_size_t v : Nat) : Int) = to_size_t v :=
  to_size_t_natCast _ (to_size_t_lt v)

theorem bit_mask_eq (k : Nat) (hk : k < 8) :
    to_uint8_t ((1 <<< k : Nat) : Int) = 2 ^ k := by
  interval_cases k <;> rfl

theorem clear_mask_eq (k : Nat) (hk : k < 8) :
    to_uint8_t (~~~ ((1 <<< k : Nat) : Int)) = 255 - 2 ^ k := by
  interval_cases k <;> rfl

theorem testBit_byte_high (b j : Nat) (hb : b < 256) (hj : 8 ≤ j) : b.testBit j = false := by
  apply Nat.testBit_lt_two_pow
  have : 2 ^ 8 ≤ 2 ^ j := Nat.pow_le_pow_right (by decide) hj
  omega

theorem testBit_clear_mask (k j : Nat) (hk : k < 8) :
    (255 - 2 ^ k).testBit j = (decide (j < 8) && !decide (k = j)) := by
  by_cases hj : j < 8
  · interval_cases k <;> interval_cases j <;> rfl
  · rw [testBit_byte_high _ j (Nat.lt_of_le_of_lt (Nat.sub_le _ _) (by decide)) (by omega)]
    simp [hj]

/-- Bits of the byte stored by `flow_nic_set_bit`. -/
theorem testBit_set_byte (b k j : Nat) :
    ((b ||| 2 ^ k) % 256).testBit j = (decide (j < 8) && (b.testBit j || decide (k = j))) := by
  have h : (256 : Nat) = 2 ^ 8 := by norm_num
  rw [h, Nat.testBit_mod_two_pow, Nat.testBit_or, Nat.testBit_two_pow]

/-- Bits of the byte stored by `flow_nic_unset_bit`. -/
theorem testBit_clear_byte (b k j : Nat) (hk : k < 8) :
    ((b &&& (255 - 2 ^ k)) % 256).testBit j
      = (decide (j < 8) && (b.testBit j && !decide (k = j))) := by
  have h : (256 : Nat) = 2 ^ 8 := by norm_num
  rw [h, Nat.testBit_mod_two_pow, Nat.testBit_and, testBit_clear_mask k j hk]
  cases b.testBit j <;> cases decide (j < 8) <;> simp

/-- Value read by `flow_nic_is_bit_set`: the mask when the bit is set, else zero. -/
theorem and_two_pow_eq (b k : Nat) : b &&& 2 ^ k = if b.testBit k then 2 ^ k else 0 := by
  apply Nat.eq_of_testBit_eq
  intro j
  rw [Nat.testBit_and, Nat.testBit_two_pow]
  by_cases hkj : k = j
  · subst hkj
    cases hb : b.testBit k <;> simp [Nat.testBit_two_pow_self]
  · cases hb : b.testBit k <;> simp [hkj, Nat.testBit_two_pow]

theorem and_two_pow_eq_zero_iff (b k : Nat) : b &&& 2 ^ k = 0 ↔ b.testBit k = false := by
  rw [and_two_pow_eq]
  cases b.testBit k <;> simp

end FlowApi

namespace FlowApi

/-! ## The macros on an index that is a `size_t` value inside the buffer -/

theorem flow_nic_is_bit_set_eq (arr : List Nat) (i b : Nat) (hi : i < 2 ^ 64)
    (hb : arr[i / 8]? = some b) :
    flow_nic_is_bit_set arr (i : Int) = .ok (if b.testBit (i % 8) then 2 ^ (i % 8) else 0) := by
  unfold flow_nic_is_bit_set
  simp only [to_size_t_natCast i hi, hb]
  rw [bit_mask_eq _ (Nat.mod_lt _ (by decide)), and_two_pow_eq]

theorem flow_nic_set_bit_eq (arr : List Nat) (i b : Nat) (hi : i < 2 ^ 64)
    (hb : arr[i / 8]? = some b) :
    flow_nic_set_bit arr (i : Int) = .ok (arr.set (i / 8) ((b ||| 2 ^ (i % 8)) % 256)) := by
  unfold flow_nic_set_bit
  simp only [to_size_t_natCast i hi, hb]
  rw [bit_mask_eq _ (Nat.mod_lt _ (by decide)), to_uint8_t_natCast]

theorem flow_nic_unset_bit_eq (arr : List Nat) (i b : Nat) (hi : i < 2 ^ 64)
    (hb : arr[i / 8]? = some b) :
    flow_nic_unset_bit arr (i : Int)
      = .ok (arr.set (i / 8) ((b &&& (255 - 2 ^ (i % 8))) % 256)) := by
  unfold flow_nic_unset_bit
  simp only [to_size_t_natCast i hi, hb]
  rw [clear_mask_eq _ (Nat.mod_lt _ (by decide)), to_uint8_t_natCast]

/-- Reading a bit after one byte of the buffer has been replaced. -/
theorem bm_bit_set (arr : List Nat) (p v j : Nat) (hp : p < arr.length) :
    bm_bit (arr.set p v) j = if j / 8 = p then v.testBit (j % 8) else bm_bit arr j := by
  unfold bm_bit
  by_cases h : j / 8 = p
  · subst h
    simp [List.getElem?_set_self hp]
  · have h2 : p ≠ j / 8 := fun e => h e.symm
    simp [List.getElem?_set_ne h2, h]

theorem bm_bit_eq_testBit (arr : List Nat) (i b : Nat) (hb : arr[i / 8]? = some b) :
    bm_bit arr i = b.testBit (i % 8) := by
  unfold bm_bit
  rw [hb]

theorem lt_length_of_getElem? {α : Type} (l : List α) (p : Nat) (a : α)
    (h : l[p]? = some a) : p < l.length := by
  rcases List.getElem?_eq_some.mp h with ⟨hlt, _⟩
  exact hlt

/-- After the store of `flow_nic_set_bit` at `i`, bit `i` reads set and every other
bit reads as before. -/
theorem bm_bit_after_set (arr : List Nat) (i b j : Nat) (hb : arr[i / 8]? = some b) :
    bm_bit (arr.set (i / 8) ((b ||| 2 ^ (i % 8)) % 256)) j
      = (decide (j = i) || bm_bit arr j) := by
  rw [bm_bit_set _ _ _ _ (lt_length_of_getElem? _ _ _ hb)]
  by_cases h : j / 8 = i / 8
  · have hj : arr[j / 8]? = some b := by rw [h]; exact hb
    rw [if_pos h, testBit_set_byte, bm_bit_eq_testBit arr j b hj]
    have h8 : j % 8 < 8 := Nat.mod_lt _ (by decide)
    by_cases hji : j = i
    · subst hji; simp [h8]
    · have hne : i % 8 ≠ j % 8 := by omega
      simp [h8, hne, hji]
  · have hji : j ≠ i := fun e => h (by rw [e])
    simp [h, hji]

/-- After the store of `flow_nic_unset_bit` at `i`, bit `i` reads clear and every
other bit reads as before. -/
theorem bm_bit_after_unset (arr : List Nat) (i b j : Nat) (hb : arr[i / 8]? = some b) :
    bm_bit (arr.set (i / 8) ((b &&& (255 - 2 ^ (i % 8))) % 256)) j
      = (!decide (j = i) && bm_bit arr j) := by
  rw [bm_bit_set _ _ _ _ (lt_length_of_getElem? _ _ _ hb)]
  by_cases h : j / 8 = i / 8
  · have hj : arr[j / 8]? = some b := by rw [h]; exact hb
    rw [if_pos h, testBit_clear_byte _ _ _ (Nat.mod_lt _ (by decide)),
      bm_bit_eq_testBit arr j b hj]
    have h8 : j % 8 < 8 := Nat.mod_lt _ (by decide)
    by_cases hji : j = i
    · subst hji; simp [h8]
    · have hne : i % 8 ≠ j % 8 := by omega
      simp [h8, hne, hji]
  · have hji : j ≠ i := fun e => h (by rw [e])
    simp [h, hji]

end FlowApi

namespace FlowApi

/-! ## The resource macros on an index inside the bitmap of an existing kind -/

theorem flow_nic_is_resource_used_eq (ndev : flow_nic_dev) (k : Nat) (r : hw_mod_resource_s)
    (i b : Nat) (hi : i < 2 ^ 64) (hr : ndev.res[k]? = some r)
    (hb : r.alloc_bm[i / 8]? = some b) :
    flow_nic_is_resource_used ndev k (i : Int)
      = .ok (if b.testBit (i % 8) then 1 else 0, ndev) := by
  unfold flow_nic_is_resource_used
  simp only [hr, flow_nic_is_bit_set_eq _ i b hi hb]
  cases b.testBit (i % 8) <;> simp

theorem flow_nic_mark_resource_used_eq (ndev : flow_nic_dev) (k : Nat)
    (r : hw_mod_resource_s) (i b : Nat) (hi : i < 2 ^ 64) (hr : ndev.res[k]? = some r)
    (hb : r.alloc_bm[i / 8]? = some b) :
    flow_nic_mark_resource_used ndev k (i : Int)
      = if b.testBit (i % 8) then .error (.assert_failed, ndev)
        else .ok { ndev with
          res := ndev.res.set k
            { r with alloc_bm := r.alloc_bm.set (i / 8) ((b ||| 2 ^ (i % 8)) % 256) } } := by
  unfold flow_nic_mark_resource_used
  simp only [hr, to_size_t_natCast i hi, flow_nic_is_bit_set_eq _ i b hi hb,
    flow_nic_set_bit_eq _ i b hi hb]
  cases b.testBit (i % 8) <;> simp

theorem flow_nic_mark_resource_unused_eq (ndev : flow_nic_dev) (k : Nat)
    (r : hw_mod_resource_s) (i b : Nat) (hi : i < 2 ^ 64) (hr : ndev.res[k]? = some r)
    (hb : r.alloc_bm[i / 8]? = some b) :
    flow_nic_mark_resource_unused ndev k (i : Int)
      = .ok { ndev with
          res := ndev.res.set k
            { r with
              alloc_bm := r.alloc_bm.set (i / 8) ((b &&& (255 - 2 ^ (i % 8))) % 256) } } := by
  unfold flow_nic_mark_resource_unused
  simp only [hr, to_size_t_natCast i hi, flow_nic_unset_bit_eq _ i b hi hb]

end FlowApi

namespace FlowApi

/-! ## Further helper lemmas -/

theorem list_set_same {α : Type} (l : List α) (p : Nat) (a : α) (h : l[p]? = some a) :
    l.set p a = l := by
  apply List.ext_getElem?
  intro n
  rw [List.getElem?_set]
  by_cases hpn : p = n
  · subst hpn
    simp [lt_length_of_getElem? l p a h, h]
  · simp [hpn]

theorem bytes_ok_getElem? (arr : List Nat) (p b : Nat) (hwf : bytes_ok arr)
    (hb : arr[p]? = some b) : b < 256 := by
  rcases List.getElem?_eq_some.mp hb with ⟨hlt, he⟩
  exact hwf b (he ▸ List.getElem_mem hlt)

/-- Setting a clear bit of a byte and clearing it again gives the byte back. -/
theorem clear_set_byte (b k : Nat) (hb : b < 256) (hk : k < 8) (hc : b.testBit k = false) :
    (((b ||| 2 ^ k) % 256) &&& (255 - 2 ^ k)) % 256 = b := by
  apply Nat.eq_of_testBit_eq
  intro j
  rw [testBit_clear_byte _ _ _ hk, testBit_set_byte]
  by_cases hj : j < 8
  · by_cases hkj : k = j
    · subst hkj; simp [hc]
    · simp [hj, hkj]
  · rw [testBit_byte_high b j hb (by omega)]
    simp [hj]

/-- Clearing a clear bit of a byte gives the byte back. -/
theorem clear_clear_byte (b k : Nat) (hb : b < 256) (hk : k < 8) (hc : b.testBit k = false) :
    (b &&& (255 - 2 ^ k)) % 256 = b := by
  apply Nat.eq_of_testBit_eq
  intro j
  rw [testBit_clear_byte _ _ _ hk]
  by_cases hj : j < 8
  · by_cases hkj : k = j
    · subst hkj; simp [hc]
    · simp [hj, hkj]
  · rw [testBit_byte_high b j hb (by omega)]
    simp [hj]

/-- Clearing a bit of a byte twice is clearing it once. -/
theorem clear_twice_byte (b k : Nat) (hk : k < 8) :
    (((b &&& (255 - 2 ^ k)) % 256) &&& (255 - 2 ^ k)) % 256 = (b &&& (255 - 2 ^ k)) % 256 := by
  apply Nat.eq_of_testBit_eq
  intro j
  rw [testBit_clear_byte _ _ _ hk, testBit_clear_byte _ _ _ hk]
  cases decide (j < 8) <;> cases b.testBit j <;> cases decide (k = j) <;> rfl

theorem flow_nic_is_bit_set_eq_bm (arr : List Nat) (i : Nat) (hi : i < 2 ^ 64)
    (hlen : i / 8 < arr.length) :
    flow_nic_is_bit_set arr (i : Int) = .ok (if bm_bit arr i then 2 ^ (i % 8) else 0) := by
  have hb : arr[i / 8]? = some (arr.get ⟨i / 8, hlen⟩) := by
    simp [List.getElem?_eq_getElem hlen]
  rw [flow_nic_is_bit_set_eq arr i _ hi hb, bm_bit_eq_testBit arr i _ hb]

theorem flow_nic_unset_bit_fault (arr : List Nat) (x : Int) (e : flow_fault)
    (h : flow_nic_unset_bit arr x = .error e) : e = .out_of_bounds := by
  unfold flow_nic_unset_bit at h
  simp only at h
  split at h
  · injection h with h
    exact h.symm
  · simp at h

theorem dev_res_set (ndev : flow_nic_dev) (k : Nat) (r r1 : hw_mod_resource_s)
    (hr : ndev.res[k]? = some r) :
    ({ ndev with res := ndev.res.set k r1 } : flow_nic_dev).res[k]? = some r1 := by
  simp [List.getElem?_set_self (lt_length_of_getElem? _ _ _ hr)]

end FlowApi

namespace FlowApi

/-! ## Reading and marking one entry -/

/-- C1: `flow_nic_is_resource_used` is a pure read of one bitmap bit.  For every
device, every kind `k` of the device and every `size_t` index `i` whose byte
`i / 8` lies inside the kind's `alloc_bm`, it returns exactly 1 when bit `i mod 8`
of byte `alloc_bm[i / 8]` is 1 and exactly 0 otherwise, and the device state after
the evaluation is the state before it. -/
theorem flow_nic_is_resource_used_reads_bit (ndev : flow_nic_dev) (k : Nat)
    (r : hw_mod_resource_s) (i b : Nat) (hi : i < 2 ^ 64) (hr : ndev.res[k]? = some r)
    (hb : r.alloc_bm[i / 8]? = some b) :
    (b.testBit (i % 8) = true → flow_nic_is_resource_used ndev k (i : Int) = .ok (1, ndev)) ∧
    (b.testBit (i % 8) = false → flow_nic_is_resource_used ndev k (i : Int) = .ok (0, ndev)) ∧
    (∀ v ndev1, flow_nic_is_resource_used ndev k (i : Int) = .ok (v, ndev1) → ndev1 = ndev) := by
  rw [flow_nic_is_resource_used_eq ndev k r i b hi hr hb]
  refine ⟨fun h => by simp [h], fun h => by simp [h], ?_⟩
  intro v ndev1 h
  injection h with h
  exact (congrArg Prod.snd h).symm

theorem flow_nic_is_resource_used_reads_bit_witness :
    flow_nic_is_resource_used
        (dev_of_pools [{ alloc_bm := [0, 4], ref := [], resource_count := 16 }]) 0 (10 : Nat)
      = .ok (1, dev_of_pools [{ alloc_bm := [0, 4], ref := [], resource_count := 16 }]) :=
  (flow_nic_is_resource_used_reads_bit
    (dev_of_pools [{ alloc_bm := [0, 4], ref := [], resource_count := 16 }]) 0
    { alloc_bm := [0, 4], ref := [], resource_count := 16 } 10 4 (by norm_num) rfl rfl).1
    (by decide)

/-- C2: marking sets the entry's bit.  For every bitmap and every in-range index
`i` whose bit is clear, `flow_nic_mark_resource_used` completes and afterwards
`flow_nic_is_resource_used` on `i` returns 1. -/
theorem flow_nic_mark_resource_used_sets_bit (ndev : flow_nic_dev) (k : Nat)
    (r : hw_mod_resource_s) (i b : Nat) (hi : i < 2 ^ 64) (hr : ndev.res[k]? = some r)
    (hb : r.alloc_bm[i / 8]? = some b) (hclear : b.testBit (i % 8) = false) :
    ∃ ndev1, flow_nic_mark_resource_used ndev k (i : Int) = .ok ndev1 ∧
      flow_nic_is_resource_used ndev1 k (i : Int) = .ok (1, ndev1) := by
  have hused : flow_nic_mark_resource_used ndev k (i : Int)
      = .ok { ndev with
          res := ndev.res.set k
            { r with alloc_bm := r.alloc_bm.set (i / 8) ((b ||| 2 ^ (i % 8)) % 256) } } := by
    rw [flow_nic_mark_resource_used_eq ndev k r i b hi hr hb, hclear]
    rfl
  refine ⟨_, hused, ?_⟩
  · have hlen := lt_length_of_getElem? _ _ _ hb
    rw [flow_nic_is_resource_used_eq _ k _ i ((b ||| 2 ^ (i % 8)) % 256) hi
      (dev_res_set ndev k r _ hr) (by simp [List.getElem?_set_self hlen])]
    rw [testBit_set_byte]
    simp [Nat.mod_lt]

theorem flow_nic_mark_resource_used_sets_bit_witness :
    ∃ ndev1,
      flow_nic_mark_resource_used
        (dev_of_pools [{ alloc_bm := [1, 0], ref := [], resource_count := 16 }]) 0 (9 : Nat)
        = .ok ndev1 ∧
      flow_nic_is_resource_used ndev1 0 (9 : Nat) = .ok (1, ndev1) :=
  flow_nic_mark_resource_used_sets_bit
    (dev_of_pools [{ alloc_bm := [1, 0], ref := [], resource_count := 16 }]) 0
    { alloc_bm := [1, 0], ref := [], resource_count := 16 } 9 0 (by norm_num) rfl rfl
    (by decide)

/-- C3: mark-then-release round trip.  For every well-formed bitmap and every
in-range index `i` whose bit is clear, `flow_nic_mark_resource_used` followed by
`flow_nic_mark_resource_unused` on `i` gives back a bitmap equal byte for byte to
the original (indeed the original device state), `flow_nic_is_resource_used` on
`i` then returns 0, and a further `flow_nic_mark_resource_used` on `i` passes its
assertion. -/
theorem flow_nic_mark_then_unmark_round_trip (ndev : flow_nic_dev) (k : Nat)
    (r : hw_mod_resource_s) (i b : Nat) (hi : i < 2 ^ 64) (hr : ndev.res[k]? = some r)
    (hwf : bytes_ok r.alloc_bm) (hb : r.alloc_bm[i / 8]? = some b)
    (hclear : b.testBit (i % 8) = false) :
    ∃ ndev1 ndev2 ndev3,
      flow_nic_mark_resource_used ndev k (i : Int) = .ok ndev1 ∧
      flow_nic_mark_resource_unused ndev1 k (i : Int) = .ok ndev2 ∧
      bm_of ndev2 k = r.alloc_bm ∧ ndev2 = ndev ∧
      flow_nic_is_resource_used ndev2 k (i : Int) = .ok (0, ndev2) ∧
      flow_nic_mark_resource_used ndev2 k (i : Int) = .ok ndev3 := by
  have hlen := lt_length_of_getElem? _ _ _ hb
  have hk := lt_length_of_getElem? _ _ _ hr
  have hb256 := bytes_ok_getElem? _ _ _ hwf hb
  have h8 : i % 8 < 8 := Nat.mod_lt _ (by decide)
  have hused : flow_nic_mark_resource_used ndev k (i : Int)
      = .ok { ndev with
          res := ndev.res.set k
            { r with alloc_bm := r.alloc_bm.set (i / 8) ((b ||| 2 ^ (i % 8)) % 256) } } := by
    rw [flow_nic_mark_resource_used_eq ndev k r i b hi hr hb, hclear]
    rfl
  refine ⟨_, ndev, _, hused, ?_, ?_, rfl, ?_, hused⟩
  · rw [flow_nic_mark_resource_unused_eq _ k _ i ((b ||| 2 ^ (i % 8)) % 256) hi
      (dev_res_set ndev k r _ hr) (by simp [List.getElem?_set_self hlen])]
    simp only [List.set_set, clear_set_byte b (i % 8) hb256 h8 hclear]
    rw [list_set_same r.alloc_bm (i / 8) b hb]
    rw [list_set_same ndev.res k r hr]
  · unfold bm_of
    rw [hr]
  · rw [flow_nic_is_resource_used_eq ndev k r i b hi hr hb, hclear]
    rfl

theorem flow_nic_mark_then_unmark_round_trip_witness :
    ∃ ndev1 ndev2 ndev3,
      flow_nic_mark_resource_used
        (dev_of_pools [{ alloc_bm := [1, 0], ref := [], resource_count := 16 }]) 0 (9 : Nat)
        = .ok ndev1 ∧
      flow_nic_mark_resource_unused ndev1 0 (9 : Nat) = .ok ndev2 ∧
      bm_of ndev2 0 = [1, 0] ∧
      ndev2 = dev_of_pools [{ alloc_bm := [1, 0], ref := [], resource_count := 16 }] ∧
      flow_nic_is_resource_used ndev2 0 (9 : Nat) = .ok (0, ndev2) ∧
      flow_nic_mark_resource_used ndev2 0 (9 : Nat) = .ok ndev3 :=
  flow_nic_mark_then_unmark_round_trip
    (dev_of_pools [{ alloc_bm := [1, 0], ref := [], resource_count := 16 }]) 0
    { alloc_bm := [1, 0], ref := [], resource_count := 16 } 9 0 (by norm_num) rfl
    (by unfold bytes_ok; decide) rfl (by decide)

end FlowApi

namespace FlowApi

/-! ## Frame of the bit macros, and the assertion of the mark macro -/

/-- C4: one bit per entry, no cross-talk.  For every bitmap and all in-range
indices `x ≠ y` (also when `y` lies in the byte of `x`), `flow_nic_set_bit` and
`flow_nic_unset_bit` at `x` complete and leave the result of `flow_nic_is_bit_set`
at `y` unchanged. -/
theorem flow_nic_bit_ops_no_cross_talk (arr : List Nat) (x y : Nat)
    (hx : x < 2 ^ 64) (hy : y < 2 ^ 64) (hxlen : x / 8 < arr.length)
    (hylen : y / 8 < arr.length) (hxy : x ≠ y) :
    (∃ arr1, flow_nic_set_bit arr (x : Int) = .ok arr1 ∧
      flow_nic_is_bit_set arr1 (y : Int) = flow_nic_is_bit_set arr (y : Int)) ∧
    (∃ arr2, flow_nic_unset_bit arr (x : Int) = .ok arr2 ∧
      flow_nic_is_bit_set arr2 (y : Int) = flow_nic_is_bit_set arr (y : Int)) := by
  have hb : arr[x / 8]? = some (arr.get ⟨x / 8, hxlen⟩) := by
    simp [List.getElem?_eq_getElem hxlen]
  have hyx : ¬ y = x := fun e => hxy e.symm
  constructor
  · refine ⟨_, flow_nic_set_bit_eq arr x _ hx hb, ?_⟩
    rw [flow_nic_is_bit_set_eq_bm _ y hy (by simpa using hylen),
      flow_nic_is_bit_set_eq_bm arr y hy hylen, bm_bit_after_set arr x _ y hb]
    simp [hyx]
  · refine ⟨_, flow_nic_unset_bit_eq arr x _ hx hb, ?_⟩
    rw [flow_nic_is_bit_set_eq_bm _ y hy (by simpa using hylen),
      flow_nic_is_bit_set_eq_bm arr y hy hylen, bm_bit_after_unset arr x _ y hb]
    simp [hyx]

theorem flow_nic_bit_ops_no_cross_talk_witness :
    (∃ arr1, flow_nic_set_bit [170, 3] (2 : Nat) = .ok arr1 ∧
      flow_nic_is_bit_set arr1 (3 : Nat) = flow_nic_is_bit_set [170, 3] (3 : Nat)) ∧
    (∃ arr2, flow_nic_unset_bit [170, 3] (2 : Nat) = .ok arr2 ∧
      flow_nic_is_bit_set arr2 (3 : Nat) = flow_nic_is_bit_set [170, 3] (3 : Nat)) :=
  flow_nic_bit_ops_no_cross_talk [170, 3] 2 3 (by norm_num) (by norm_num) (by decide)
    (by decide) (by decide)

/-- C5: a slot cannot be claimed twice.  With the `assert` as an error result,
`flow_nic_mark_resource_used` on an in-range index succeeds if and only if the bit
of the entry was clear before the call; when the bit was already set the assertion
fails and the device state (so the bitmap) at the failure is the one before the
call. -/
theorem flow_nic_mark_resource_used_iff_clear (ndev : flow_nic_dev) (k : Nat)
    (r : hw_mod_resource_s) (i b : Nat) (hi : i < 2 ^ 64) (hr : ndev.res[k]? = some r)
    (hb : r.alloc_bm[i / 8]? = some b) :
    ((∃ ndev1, flow_nic_mark_resource_used ndev k (i : Int) = .ok ndev1)
        ↔ b.testBit (i % 8) = false) ∧
    (b.testBit (i % 8) = true →
      flow_nic_mark_resource_used ndev k (i : Int) = .error (.assert_failed, ndev)) := by
  rw [flow_nic_mark_resource_used_eq ndev k r i b hi hr hb]
  cases hbit : b.testBit (i % 8) <;> simp

theorem flow_nic_mark_resource_used_iff_clear_witness :
    flow_nic_mark_resource_used
        (dev_of_pools [{ alloc_bm := [8], ref := [], resource_count := 8 }]) 0 (3 : Nat)
      = .error (.assert_failed,
          dev_of_pools [{ alloc_bm := [8], ref := [], resource_count := 8 }]) :=
  (flow_nic_mark_resource_used_iff_clear
    (dev_of_pools [{ alloc_bm := [8], ref := [], resource_count := 8 }]) 0
    { alloc_bm := [8], ref := [], resource_count := 8 } 3 8 (by norm_num) rfl rfl).2
    (by decide)

/-! ## Release -/

/-- C6, counterexample: on the bitmap `[0]` the bit of entry 0 is clear, and
`flow_nic_mark_resource_unused` on entry 0 completes as a success. -/
theorem flow_nic_mark_resource_unused_clear_bit_succeeds :
    bm_bit (bm_of (dev_of_pools [{ alloc_bm := [0], ref := [0], resource_count := 8 }]) 0) 0
      = false ∧
    flow_nic_mark_resource_unused
        (dev_of_pools [{ alloc_bm := [0], ref := [0], resource_count := 8 }]) 0 (0 : Nat)
      = .ok (dev_of_pools [{ alloc_bm := [0], ref := [0], resource_count := 8 }]) := by
  constructor <;> rfl

/-- C6, amended: releasing an entry that is not allocated is not rejected by the
release primitive.  For every well-formed bitmap and in-range index `i` whose bit
is already 0, `flow_nic_mark_resource_unused` completes as a success and leaves the
device state unchanged; and on no input at all does it fail by an assertion. -/
theorem flow_nic_mark_resource_unused_not_fenced (ndev : flow_nic_dev) (k : Nat)
    (r : hw_mod_resource_s) (i b : Nat) (hi : i < 2 ^ 64) (hr : ndev.res[k]? = some r)
    (hwf : bytes_ok r.alloc_bm) (hb : r.alloc_bm[i / 8]? = some b)
    (hclear : b.testBit (i % 8) = false) :
    flow_nic_mark_resource_unused ndev k (i : Int) = .ok ndev ∧
    (∀ (d : flow_nic_dev) (j : Nat) (x : Int) (s : flow_nic_dev),
      flow_nic_mark_resource_unused d j x ≠ .error (.assert_failed, s)) := by
  constructor
  · rw [flow_nic_mark_resource_unused_eq ndev k r i b hi hr hb,
      clear_clear_byte b (i % 8) (bytes_ok_getElem? _ _ _ hwf hb)
        (Nat.mod_lt _ (by decide)) hclear,
      list_set_same r.alloc_bm (i / 8) b hb, list_set_same ndev.res k r hr]
  · intro d j x s
    unfold flow_nic_mark_resource_unused
    simp only
    split
    · simp
    · split
      · rename_i e heq
        rw [flow_nic_unset_bit_fault _ _ e heq]
        simp
      · simp

theorem flow_nic_mark_resource_unused_not_fenced_witness :
    flow_nic_mark_resource_unused
        (dev_of_pools [{ alloc_bm := [5], ref := [0], resource_count := 8 }]) 0 (1 : Nat)
      = .ok (dev_of_pools [{ alloc_bm := [5], ref := [0], resource_count := 8 }]) :=
  (flow_nic_mark_resource_unused_not_fenced
    (dev_of_pools [{ alloc_bm := [5], ref := [0], resource_count := 8 }]) 0
    { alloc_bm := [5], ref := [0], resource_count := 8 } 1 5 (by norm_num) rfl
    (by unfold bytes_ok; decide) rfl (by decide)).1

/-- C7: release is idempotent.  For every bitmap and in-range index `i`, applying
`flow_nic_mark_resource_unused` on `i` twice yields exactly the state that applying
it once yields; and applied to an entry of a well-formed bitmap whose bit is
already clear it leaves the bitmap unchanged. -/
theorem flow_nic_mark_resource_unused_idempotent (ndev : flow_nic_dev) (k : Nat)
    (r : hw_mod_resource_s) (i b : Nat) (hi : i < 2 ^ 64) (hr : ndev.res[k]? = some r)
    (hb : r.alloc_bm[i / 8]? = some b) :
    (∃ ndev1, flow_nic_mark_resource_unused ndev k (i : Int) = .ok ndev1 ∧
      flow_nic_mark_resource_unused ndev1 k (i : Int) = .ok ndev1) ∧
    (bytes_ok r.alloc_bm → b.testBit (i % 8) = false →
      ∃ ndev1, flow_nic_mark_resource_unused ndev k (i : Int) = .ok ndev1 ∧
        bm_of ndev1 k = bm_of ndev k) := by
  have hlen := lt_length_of_getElem? _ _ _ hb
  constructor
  · refine ⟨_, flow_nic_mark_resource_unused_eq ndev k r i b hi hr hb, ?_⟩
    rw [flow_nic_mark_resource_unused_eq _ k _ i ((b &&& (255 - 2 ^ (i % 8))) % 256) hi
      (dev_res_set ndev k r _ hr) (by simp [List.getElem?_set_self hlen])]
    simp only [List.set_set, clear_twice_byte b (i % 8) (Nat.mod_lt _ (by decide))]
  · intro hwf hclear
    refine ⟨_, flow_nic_mark_resource_unused_eq ndev k r i b hi hr hb, ?_⟩
    rw [clear_clear_byte b (i % 8) (bytes_ok_getElem? _ _ _ hwf hb)
        (Nat.mod_lt _ (by decide)) hclear,
      list_set_same r.alloc_bm (i / 8) b hb, list_set_same ndev.res k r hr]

theorem flow_nic_mark_resource_unused_idempotent_witness :
    (∃ ndev1,
      flow_nic_mark_resource_unused
        (dev_of_pools [{ alloc_bm := [255, 239], ref := [], resource_count := 16 }]) 0
        (11 : Nat) = .ok ndev1 ∧
      flow_nic_mark_resource_unused ndev1 0 (11 : Nat) = .ok ndev1) ∧
    (∃ ndev1,
      flow_nic_mark_resource_unused
        (dev_of_pools [{ alloc_bm := [255, 239], ref := [], resource_count := 16 }]) 0
        (12 : Nat) = .ok ndev1 ∧
      bm_of ndev1 0
        = bm_of (dev_of_pools [{ alloc_bm := [255, 239], ref := [], resource_count := 16 }]) 0) :=
  ⟨(flow_nic_mark_resource_unused_idempotent
      (dev_of_pools [{ alloc_bm := [255, 239], ref := [], resource_count := 16 }]) 0
      { alloc_bm := [255, 239], ref := [], resource_count := 16 } 11 239 (by norm_num) rfl
      rfl).1,
   (flow_nic_mark_resource_unused_idempotent
      (dev_of_pools [{ alloc_bm := [255, 239], ref := [], resource_count := 16 }]) 0
      { alloc_bm := [255, 239], ref := [], resource_count := 16 } 12 239 (by norm_num) rfl
      rfl).2 (by unfold bytes_ok; decide) (by decide)⟩

end FlowApi

namespace FlowApi

/-! ## Shape of a completed mark or release -/

theorem flow_nic_set_bit_length (arr arr1 : List Nat) (x : Int)
    (h : flow_nic_set_bit arr x = .ok arr1) : arr1.length = arr.length := by
  unfold flow_nic_set_bit at h
  simp only at h
  split at h
  · simp at h
  · injection h with h
    rw [← h, List.length_set]

theorem flow_nic_unset_bit_length (arr arr1 : List Nat) (x : Int)
    (h : flow_nic_unset_bit arr x = .ok arr1) : arr1.length = arr.length := by
  unfold flow_nic_unset_bit at h
  simp only at h
  split at h
  · simp at h
  · injection h with h
    rw [← h, List.length_set]

/-- A completed `flow_nic_mark_resource_used` has replaced the bitmap of kind `k`
by one of the same length and nothing else. -/
theorem flow_nic_mark_resource_used_shape (ndev ndev1 : flow_nic_dev) (k : Nat) (x : Int)
    (h : flow_nic_mark_resource_used ndev k x = .ok ndev1) :
    ∃ r bm, ndev.res[k]? = some r ∧ bm.length = r.alloc_bm.length ∧
      ndev1 = { ndev with res := ndev.res.set k { r with alloc_bm := bm } } := by
  unfold flow_nic_mark_resource_used at h
  simp only at h
  split at h
  · simp at h
  · rename_i r hr
    split at h
    · simp at h
    · split at h
      · split at h
        · simp at h
        · rename_i bm hbm
          injection h with h
          exact ⟨r, bm, hr, flow_nic_set_bit_length _ _ _ hbm, h.symm⟩
      · simp at h

/-- A completed `flow_nic_mark_resource_unused` has replaced the bitmap of kind `k`
by one of the same length and nothing else. -/
theorem flow_nic_mark_resource_unused_shape (ndev ndev1 : flow_nic_dev) (k : Nat) (x : Int)
    (h : flow_nic_mark_resource_unused ndev k x = .ok ndev1) :
    ∃ r bm, ndev.res[k]? = some r ∧ bm.length = r.alloc_bm.length ∧
      ndev1 = { ndev with res := ndev.res.set k { r with alloc_bm := bm } } := by
  unfold flow_nic_mark_resource_unused at h
  simp only at h
  split at h
  · simp at h
  · rename_i r hr
    split at h
    · simp at h
    · rename_i bm hbm
      injection h with h
      exact ⟨r, bm, hr, flow_nic_unset_bit_length _ _ _ hbm, h.symm⟩

end FlowApi

namespace FlowApi

/-! ## The pool invariant -/

theorem dev_inv_single (r : hw_mod_resource_s) (h : pool_inv r) :
    dev_inv (dev_of_pools [r]) := by
  intro k r1 hr1
  cases k with
  | zero =>
    simp [dev_of_pools] at hr1
    subst hr1
    exact h
  | succ n => simp [dev_of_pools] at hr1

theorem pool_inv_example (bm : List Nat) (hbit : bm_bit bm 0 = true) :
    pool_inv { alloc_bm := bm, ref := [1, 0], resource_count := 2 } := by
  intro e he c hc hpos
  simp only at he
  interval_cases e
  · exact hbit
  · simp at hc
    omega

/-- C8, counterexample: on the pool with bitmap `[1]` and `ref = [1]` the invariant
holds, `flow_nic_mark_resource_unused` on entry 0 completes, and in the resulting
state `ref[0] > 0` while the bit of entry 0 is clear. -/
theorem flow_nic_mark_resource_unused_breaks_pool_inv :
    dev_inv (dev_of_pools [{ alloc_bm := [1], ref := [1], resource_count := 1 }]) ∧
    flow_nic_mark_resource_unused
        (dev_of_pools [{ alloc_bm := [1], ref := [1], resource_count := 1 }]) 0 (0 : Nat)
      = .ok (dev_of_pools [{ alloc_bm := [0], ref := [1], resource_count := 1 }]) ∧
    ¬ dev_inv (dev_of_pools [{ alloc_bm := [0], ref := [1], resource_count := 1 }]) := by
  refine ⟨?_, rfl, ?_⟩
  · intro k r hr e he c _ _
    cases k with
    | zero =>
      simp [dev_of_pools] at hr
      subst hr
      have he0 : e = 0 := by simp at he; exact he
      subst he0
      rfl
    | succ n => simp [dev_of_pools] at hr
  · intro h
    have hbit := h 0 { alloc_bm := [0], ref := [1], resource_count := 1 } rfl 0
      (by decide) 1 rfl (by decide)
    simp [bm_bit] at hbit

/-- C8, amended: the pool invariant `ref[e] > 0 → bit e set` is preserved by
`flow_nic_mark_resource_used` on every in-range index, and by
`flow_nic_mark_resource_unused` on every in-range index whose reference counter is
not positive. -/
theorem flow_nic_mark_preserves_pool_inv (ndev : flow_nic_dev) (k : Nat)
    (r : hw_mod_resource_s) (i b : Nat) (hi : i < 2 ^ 64) (hr : ndev.res[k]? = some r)
    (hb : r.alloc_bm[i / 8]? = some b) (hinv : dev_inv ndev) :
    (∀ ndev1, flow_nic_mark_resource_used ndev k (i : Int) = .ok ndev1 → dev_inv ndev1) ∧
    ((∀ c : Nat, r.ref[i]? = some c → c = 0) →
      ∀ ndev2, flow_nic_mark_resource_unused ndev k (i : Int) = .ok ndev2 → dev_inv ndev2) := by
  have hk := lt_length_of_getElem? _ _ _ hr
  constructor
  · intro ndev1 h
    rw [flow_nic_mark_resource_used_eq ndev k r i b hi hr hb] at h
    cases hbit : b.testBit (i % 8)
    · rw [hbit] at h
      simp only [Bool.false_eq_true, if_false] at h
      injection h with h
      subst h
      intro j r1 hr1 e he c hc hpos
      by_cases hjk : k = j
      · subst hjk
        simp only [List.getElem?_set_self hk, Option.some.injEq] at hr1
        subst hr1
        simp only [bm_bit_after_set r.alloc_bm i b e hb]
        rw [hinv k r hr e he c hc hpos]
        simp
      · simp only [List.getElem?_set_ne hjk] at hr1
        exact hinv j r1 hr1 e he c hc hpos
    · rw [hbit] at h
      simp at h
  · intro href ndev2 h
    rw [flow_nic_mark_resource_unused_eq ndev k r i b hi hr hb] at h
    injection h with h
    subst h
    intro j r1 hr1 e he c hc hpos
    by_cases hjk : k = j
    · subst hjk
      simp only [List.getElem?_set_self hk, Option.some.injEq] at hr1
      subst hr1
      simp only [bm_bit_after_unset r.alloc_bm i b e hb]
      have hei : e ≠ i := by
        intro hei
        subst hei
        have := href c hc
        omega
      rw [hinv k r hr e he c hc hpos]
      simp [hei]
    · simp only [List.getElem?_set_ne hjk] at hr1
      exact hinv j r1 hr1 e he c hc hpos

theorem flow_nic_mark_preserves_pool_inv_witness :
    dev_inv (dev_of_pools [{ alloc_bm := [3], ref := [1, 0], resource_count := 2 }]) ∧
    dev_inv (dev_of_pools [{ alloc_bm := [5], ref := [1, 0], resource_count := 2 }]) :=
  ⟨(flow_nic_mark_preserves_pool_inv
      (dev_of_pools [{ alloc_bm := [1], ref := [1, 0], resource_count := 2 }]) 0
      { alloc_bm := [1], ref := [1, 0], resource_count := 2 } 1 1 (by norm_num) rfl rfl
      (dev_inv_single _ (pool_inv_example [1] rfl))).1 _ rfl,
   (flow_nic_mark_preserves_pool_inv
      (dev_of_pools [{ alloc_bm := [7], ref := [1, 0], resource_count := 2 }]) 0
      { alloc_bm := [7], ref := [1, 0], resource_count := 2 } 1 7 (by norm_num) rfl rfl
      (dev_inv_single _ (pool_inv_example [7] rfl))).2 (by decide) _ rfl⟩

/-! ## Frame of the resource macros -/

/-- C9: capacity is immutable and pools are independent.  A completed
`flow_nic_mark_resource_used` or `flow_nic_mark_resource_unused` on kind `k` changes
only `res[k].alloc_bm`: `res[k].resource_count` and `res[k].ref` are unchanged, the
byte length of `res[k].alloc_bm` is unchanged, every other pool `res[j]`, `j ≠ k`,
is unchanged, and so are the number of pools and the other fields of the device. -/
theorem flow_nic_mark_frame (ndev ndev1 : flow_nic_dev) (k : Nat) (x : Int)
    (h : flow_nic_mark_resource_used ndev k x = .ok ndev1 ∨
      flow_nic_mark_resource_unused ndev k x = .ok ndev1) :
    (∃ r r1, ndev.res[k]? = some r ∧ ndev1.res[k]? = some r1 ∧
      r1.resource_count = r.resource_count ∧ r1.ref = r.ref ∧
      r1.alloc_bm.length = r.alloc_bm.length) ∧
    (∀ j : Nat, j ≠ k → ndev1.res[j]? = ndev.res[j]?) ∧
    ndev1.res.length = ndev.res.length ∧
    ndev1.adapter_no = ndev.adapter_no ∧ ndev1.ports = ndev.ports ∧
    ndev1.flow_profile = ndev.flow_profile ∧
    ndev1.flow_unique_id_counter = ndev.flow_unique_id_counter := by
  have hshape : ∃ r bm, ndev.res[k]? = some r ∧ bm.length = r.alloc_bm.length ∧
      ndev1 = { ndev with res := ndev.res.set k { r with alloc_bm := bm } } := by
    rcases h with h | h
    · exact flow_nic_mark_resource_used_shape ndev ndev1 k x h
    · exact flow_nic_mark_resource_unused_shape ndev ndev1 k x h
  obtain ⟨r, bm, hr, hlen, hd⟩ := hshape
  subst hd
  have hk := lt_length_of_getElem? _ _ _ hr
  refine ⟨⟨r, _, hr, dev_res_set ndev k r _ hr, rfl, rfl, hlen⟩, ?_, ?_, rfl, rfl, rfl, rfl⟩
  · intro j hj
    simp only [List.getElem?_set_ne (fun e => hj e.symm)]
  · simp

theorem flow_nic_mark_frame_witness :
    (∃ r r1,
      (dev_of_pools [{ alloc_bm := [0], ref := [0, 0], resource_count := 2 },
          { alloc_bm := [1, 2], ref := [3], resource_count := 9 }]).res[1]? = some r ∧
      (dev_of_pools [{ alloc_bm := [0], ref := [0, 0], resource_count := 2 },
          { alloc_bm := [1, 6], ref := [3], resource_count := 9 }]).res[1]? = some r1 ∧
      r1.resource_count = r.resource_count ∧ r1.ref = r.ref ∧
      r1.alloc_bm.length = r.alloc_bm.length) :=
  (flow_nic_mark_frame
    (dev_of_pools [{ alloc_bm := [0], ref := [0, 0], resource_count := 2 },
      { alloc_bm := [1, 2], ref := [3], resource_count := 9 }])
    (dev_of_pools [{ alloc_bm := [0], ref := [0, 0], resource_count := 2 },
      { alloc_bm := [1, 6], ref := [3], resource_count := 9 }]) 1 (10 : Nat)
    (Or.inl rfl)).1

end FlowApi

namespace FlowApi

/-! ## Aligned first-fit allocation -/

/-- The first hit of a search through `0, 1, ..., n - 1` is the least index that
satisfies the test. -/
theorem find?_range_least (p : Nat → Bool) :
    ∀ (n i : Nat), (List.range n).find? p = some i →
      i < n ∧ p i = true ∧ ∀ j : Nat, j < i → p j = false := by
  intro n
  induction n with
  | zero => intro i h; simp at h
  | succ n ih =>
    intro i h
    rw [List.range_succ, List.find?_append] at h
    cases hfind : (List.range n).find? p with
    | some i1 =>
      rw [hfind] at h
      simp only [Option.or_some, Option.some.injEq] at h
      subst h
      obtain ⟨h1, h2, h3⟩ := ih i1 hfind
      exact ⟨by omega, h2, h3⟩
    | none =>
      rw [hfind] at h
      simp only [Option.none_or, List.find?_singleton] at h
      split at h
      · rename_i hpn
        injection h with h
        subst h
        refine ⟨by omega, hpn, ?_⟩
        intro j hj
        have := (List.find?_eq_none.mp hfind) j (List.mem_range.mpr hj)
        simpa using this
      · simp at h

theorem flow_nic_alloc_resource_cases (ndev : flow_nic_dev) (k : Nat)
    (r : hw_mod_resource_s) (A : Nat) (hr : ndev.res[k]? = some r)
    (hcount : r.resource_count < 2 ^ 32) (hbm : r.resource_count ≤ 8 * r.alloc_bm.length)
    (href : r.resource_count ≤ r.ref.length) :
    (∃ i ndev1, flow_nic_alloc_resource ndev k A = .ok (.index i, ndev1) ∧
      i < r.resource_count ∧ i % A = 0 ∧ bm_bit r.alloc_bm i = false ∧
      (∀ j : Nat, j < i → j % A = 0 → bm_bit r.alloc_bm j = true) ∧
      flow_nic_is_resource_used ndev1 k (i : Int) = .ok (1, ndev1)) ∨
    (flow_nic_alloc_resource ndev k A = .ok (.ResourceExhausted, ndev) ∧
      ∀ j : Nat, j < r.resource_count → j % A = 0 → bm_bit r.alloc_bm j = true) := by
  have hk := lt_length_of_getElem? _ _ _ hr
  cases hfind : (List.range r.resource_count).find?
      (fun i => decide (i % A = 0) && !bm_bit r.alloc_bm i) with
  | none =>
    right
    constructor
    · unfold flow_nic_alloc_resource
      simp only [hr, hfind]
    · intro j hj hjA
      have := (List.find?_eq_none.mp hfind) j (List.mem_range.mpr hj)
      simpa [hjA] using this
  | some i =>
    left
    obtain ⟨hilt, hpi, hmin⟩ := find?_range_least _ _ _ hfind
    simp only [Bool.and_eq_true, decide_eq_true_eq, Bool.not_eq_true'] at hpi
    obtain ⟨hiA, hfree⟩ := hpi
    have hi : i < 2 ^ 64 := by
      have : (2 : Nat) ^ 32 < 2 ^ 64 := by norm_num
      omega
    have hlen : i / 8 < r.alloc_bm.length := by omega
    have hb : r.alloc_bm[i / 8]? = some (r.alloc_bm.get ⟨i / 8, hlen⟩) := by
      simp [List.getElem?_eq_getElem hlen]
    have hbit : (r.alloc_bm.get ⟨i / 8, hlen⟩).testBit (i % 8) = false := by
      rw [← bm_bit_eq_testBit r.alloc_bm i _ hb]
      exact hfree
    have hiref : i < r.ref.length := by omega
    have hres : ∃ ndev1, flow_nic_alloc_resource ndev k A = .ok (.index i, ndev1) ∧
        ndev1.res[k]? = some
          { alloc_bm := r.alloc_bm.set (i / 8)
              ((r.alloc_bm.get ⟨i / 8, hlen⟩ ||| 2 ^ (i % 8)) % 256),
            ref := r.ref.set i 0, resource_count := r.resource_count } := by
      unfold flow_nic_alloc_resource
      simp only [hr, hfind, flow_nic_mark_resource_used_eq ndev k r i _ hi hr hb, hbit,
        Bool.false_eq_true, if_false, List.getElem?_set_self hk, hiref, if_true]
      exact ⟨_, rfl, by simp [List.getElem?_set_self hk]⟩
    obtain ⟨ndev1, hres, hr1⟩ := hres
    refine ⟨i, ndev1, hres, hilt, hiA, hfree, ?_, ?_⟩
    · intro j hj hjA
      have := hmin j hj
      simpa [hjA] using this
    · rw [flow_nic_is_resource_used_eq ndev1 k _ i
        ((r.alloc_bm.get ⟨i / 8, hlen⟩ ||| 2 ^ (i % 8)) % 256) hi hr1
        (by simp [List.getElem?_set_self hlen])]
      rw [testBit_set_byte]
      simp [Nat.mod_lt]

/-- C10: aligned first-fit allocation.  For every pool whose bitmap and reference
table cover `resource_count` entries and every power-of-two alignment `A`,
`flow_nic_alloc_resource` either returns the lowest free index that is a multiple
of `A` and leaves it marked used, or fails with resource exhaustion; and it fails
with resource exhaustion exactly when no free index below `resource_count` is a
multiple of `A`. -/
theorem flow_nic_alloc_resource_first_fit (ndev : flow_nic_dev) (k : Nat)
    (r : hw_mod_resource_s) (A : Nat) (hr : ndev.res[k]? = some r)
    (hcount : r.resource_count < 2 ^ 32) (hbm : r.resource_count ≤ 8 * r.alloc_bm.length)
    (href : r.resource_count ≤ r.ref.length) (hA : ∃ n : Nat, A = 2 ^ n) :
    ((∃ i ndev1, flow_nic_alloc_resource ndev k A = .ok (.index i, ndev1) ∧
        i < r.resource_count ∧ i % A = 0 ∧ bm_bit r.alloc_bm i = false ∧
        (∀ j : Nat, j < i → j % A = 0 → bm_bit r.alloc_bm j = true) ∧
        flow_nic_is_resource_used ndev1 k (i : Int) = .ok (1, ndev1)) ∨
      flow_nic_alloc_resource ndev k A = .ok (.ResourceExhausted, ndev)) ∧
    ((∃ ndev1, flow_nic_alloc_resource ndev k A = .ok (.ResourceExhausted, ndev1)) ↔
      ¬ ∃ i : Nat, i < r.resource_count ∧ i % A = 0 ∧ bm_bit r.alloc_bm i = false) := by
  have _ := hA
  rcases flow_nic_alloc_resource_cases ndev k r A hr hcount hbm href with
    ⟨i, ndev1, hres, hilt, hiA, hfree, hmin, hused⟩ | ⟨hres, hnone⟩
  · refine ⟨Or.inl ⟨i, ndev1, hres, hilt, hiA, hfree, hmin, hused⟩, ?_⟩
    constructor
    · rintro ⟨s, hs⟩
      rw [hres] at hs
      simp at hs
    · intro hno
      exact absurd ⟨i, hilt, hiA, hfree⟩ hno
  · refine ⟨Or.inr hres, ?_⟩
    constructor
    · rintro _ ⟨i, hilt, hiA, hfree⟩
      rw [hnone i hilt hiA] at hfree
      simp at hfree
    · intro _
      exact ⟨ndev, hres⟩

theorem flow_nic_alloc_resource_first_fit_witness :
    (flow_nic_alloc_resource
        (dev_of_pools
          [{ alloc_bm := [0], ref := [0, 0, 0, 0, 0, 0, 0, 0], resource_count := 8 }]) 0 4
      = .ok (.index 0,
          dev_of_pools
            [{ alloc_bm := [1], ref := [0, 0, 0, 0, 0, 0, 0, 0], resource_count := 8 }]) ∧
     flow_nic_alloc_resource
        (dev_of_pools
          [{ alloc_bm := [1], ref := [0, 0, 0, 0, 0, 0, 0, 0], resource_count := 8 }]) 0 4
      = .ok (.index 4,
          dev_of_pools
            [{ alloc_bm := [17], ref := [0, 0, 0, 0, 0, 0, 0, 0], resource_count := 8 }]) ∧
     flow_nic_alloc_resource
        (dev_of_pools
          [{ alloc_bm := [17], ref := [0, 0, 0, 0, 0, 0, 0, 0], resource_count := 8 }]) 0 4
      = .ok (.ResourceExhausted,
          dev_of_pools
            [{ alloc_bm := [17], ref := [0, 0, 0, 0, 0, 0, 0, 0], resource_count := 8 }])) ∧
    ((∃ ndev1,
        flow_nic_alloc_resource
          (dev_of_pools
            [{ alloc_bm := [17], ref := [0, 0, 0, 0, 0, 0, 0, 0], resource_count := 8 }]) 0 4
        = .ok (.ResourceExhausted, ndev1)) ↔
      ¬ ∃ i : Nat, i < 8 ∧ i % 4 = 0 ∧ bm_bit [17] i = false) :=
  ⟨⟨rfl, rfl, rfl⟩,
   (flow_nic_alloc_resource_first_fit
      (dev_of_pools
        [{ alloc_bm := [17], ref := [0, 0, 0, 0, 0, 0, 0, 0], resource_count := 8 }]) 0
      { alloc_bm := [17], ref := [0, 0, 0, 0, 0, 0, 0, 0], resource_count := 8 } 4 rfl
      (by norm_num) (by decide) (by decide) ⟨2, rfl⟩).2⟩

end FlowApi

namespace FlowApi

/-! ## Reference-count lifecycle -/

theorem entry_state_eq_some (ndev : flow_nic_dev) (k i : Nat) (bit : Bool) (c : Nat)
    (h : entry_state ndev k i = some (bit, c)) :
    ∃ r b, ndev.res[k]? = some r ∧ i < r.resource_count ∧ r.alloc_bm[i / 8]? = some b ∧
      b.testBit (i % 8) = bit ∧ r.ref[i]? = some c := by
  unfold entry_state at h
  split at h
  · simp at h
  · rename_i r hr
    split at h
    · rename_i hlt
      split at h
      · rename_i b c1 hb hc
        simp only [Option.some.injEq, Prod.mk.injEq] at h
        exact ⟨r, b, hr, hlt, hb, h.1, by rw [hc, h.2]⟩
      · simp at h
    · simp at h

theorem entry_state_of (ndev : flow_nic_dev) (k i : Nat) (r : hw_mod_resource_s) (b c : Nat)
    (hr : ndev.res[k]? = some r) (hlt : i < r.resource_count)
    (hb : r.alloc_bm[i / 8]? = some b) (hc : r.ref[i]? = some c) :
    entry_state ndev k i = some (b.testBit (i % 8), c) := by
  unfold entry_state
  simp only [hr, hlt, if_true, hb, hc]

/-- One `flow_nic_deref_resource` on an allocated entry: the counter goes up by one
and the bit stays set. -/
theorem flow_nic_deref_resource_step (ndev : flow_nic_dev) (k i c : Nat) (hi : i < 2 ^ 64)
    (h : entry_state ndev k i = some (true, c)) :
    ∃ ndev1, flow_nic_deref_resource ndev k (i : Int)
        = .ok (.refcount ((c + 1) % 2 ^ 32), ndev1) ∧
      entry_state ndev1 k i = some (true, (c + 1) % 2 ^ 32) := by
  obtain ⟨r, b, hr, hlt, hb, hbit, hc⟩ := entry_state_eq_some ndev k i true c h
  have hk := lt_length_of_getElem? _ _ _ hr
  have hiref := lt_length_of_getElem? _ _ _ hc
  have hcond : ¬ ((i : Int) < 0 ∨ (r.resource_count : Int) ≤ (i : Int)) := by omega
  refine ⟨{ ndev with
      res := ndev.res.set k { r with ref := r.ref.set i ((c + 1) % 2 ^ 32) } }, ?_, ?_⟩
  · unfold flow_nic_deref_resource
    simp only [hr, hcond, if_false, flow_nic_is_resource_used_eq ndev k r i b hi hr hb, hbit,
      if_true, Int.toNat_ofNat, hc]
    simp
  · have := entry_state_of
      { ndev with res := ndev.res.set k { r with ref := r.ref.set i ((c + 1) % 2 ^ 32) } }
      k i { r with ref := r.ref.set i ((c + 1) % 2 ^ 32) } b ((c + 1) % 2 ^ 32)
      (by simp [List.getElem?_set_self hk]) hlt hb (by simp [List.getElem?_set_self hiref])
    rw [this, hbit]

/-- One `flow_nic_free_resource` on an allocated entry with a positive counter: the
counter goes down by one and the bit stays set. -/
theorem flow_nic_free_resource_step_pos (ndev : flow_nic_dev) (k i c : Nat)
    (hi : i < 2 ^ 64) (h : entry_state ndev k i = some (true, c + 1)) :
    ∃ ndev1, flow_nic_free_resource ndev k (i : Int) = .ok ndev1 ∧
      entry_state ndev1 k i = some (true, c) := by
  obtain ⟨r, b, hr, hlt, hb, hbit, hc⟩ := entry_state_eq_some ndev k i true (c + 1) h
  have hk := lt_length_of_getElem? _ _ _ hr
  have hiref := lt_length_of_getElem? _ _ _ hc
  have hcond : ¬ ((i : Int) < 0) := by omega
  refine ⟨{ ndev with res := ndev.res.set k { r with ref := r.ref.set i c } }, ?_, ?_⟩
  · unfold flow_nic_free_resource
    simp only [hr, hcond, if_false, flow_nic_is_resource_used_eq ndev k r i b hi hr hb, hbit,
      if_true, Int.toNat_ofNat, hc]
    simp
  · have := entry_state_of
      { ndev with res := ndev.res.set k { r with ref := r.ref.set i c } }
      k i { r with ref := r.ref.set i c } b c
      (by simp [List.getElem?_set_self hk]) hlt hb (by simp [List.getElem?_set_self hiref])
    rw [this, hbit]

/-- One `flow_nic_free_resource` on an allocated entry with counter 0: the bit is
cleared. -/
theorem flow_nic_free_resource_step_zero (ndev : flow_nic_dev) (k i : Nat)
    (hi : i < 2 ^ 64) (h : entry_state ndev k i = some (true, 0)) :
    ∃ ndev1, flow_nic_free_resource ndev k (i : Int) = .ok ndev1 ∧
      entry_state ndev1 k i = some (false, 0) := by
  obtain ⟨r, b, hr, hlt, hb, hbit, hc⟩ := entry_state_eq_some ndev k i true 0 h
  have hk := lt_length_of_getElem? _ _ _ hr
  have hlen := lt_length_of_getElem? _ _ _ hb
  have hcond : ¬ ((i : Int) < 0) := by omega
  refine ⟨{ ndev with
      res := ndev.res.set k
        { r with alloc_bm := r.alloc_bm.set (i / 8) ((b &&& (255 - 2 ^ (i % 8))) % 256) } },
    ?_, ?_⟩
  · unfold flow_nic_free_resource
    simp only [hr, hcond, if_false, flow_nic_is_resource_used_eq ndev k r i b hi hr hb, hbit,
      if_true, Int.toNat_ofNat, hc, flow_nic_mark_resource_unused_eq ndev k r i b hi hr hb]
    simp
  · have := entry_state_of
      { ndev with
        res := ndev.res.set k
          { r with alloc_bm := r.alloc_bm.set (i / 8) ((b &&& (255 - 2 ^ (i % 8))) % 256) } }
      k i { r with alloc_bm := r.alloc_bm.set (i / 8) ((b &&& (255 - 2 ^ (i % 8))) % 256) }
      ((b &&& (255 - 2 ^ (i % 8))) % 256) 0
      (by simp [List.getElem?_set_self hk]) hlt (by simp [List.getElem?_set_self hlen]) hc
    rw [this, testBit_clear_byte _ _ _ (Nat.mod_lt _ (by decide))]
    simp

theorem deref_times_spec (k i : Nat) (hi : i < 2 ^ 64) :
    ∀ (n : Nat) (ndev : flow_nic_dev) (c : Nat),
      entry_state ndev k i = some (true, c) → c + n < 2 ^ 32 →
      ∃ d, deref_times k (i : Int) n ndev = .ok d ∧
        entry_state d k i = some (true, c + n) := by
  intro n
  induction n with
  | zero =>
    intro ndev c h _
    exact ⟨ndev, rfl, h⟩
  | succ n ih =>
    intro ndev c h hn
    obtain ⟨ndev1, hstep, hst1⟩ := flow_nic_deref_resource_step ndev k i c hi h
    have hmod : (c + 1) % 2 ^ 32 = c + 1 := Nat.mod_eq_of_lt (by omega)
    rw [hmod] at hstep hst1
    obtain ⟨d, hd, hst⟩ := ih ndev1 (c + 1) hst1 (by omega)
    refine ⟨d, ?_, ?_⟩
    · simp only [deref_times, hstep]
      exact hd
    · rw [hst]
      congr 2
      omega

theorem free_times_pos (k i : Nat) (hi : i < 2 ^ 64) :
    ∀ (m : Nat) (ndev : flow_nic_dev) (c : Nat),
      entry_state ndev k i = some (true, c + m) →
      ∃ d, free_times k (i : Int) m ndev = .ok d ∧ entry_state d k i = some (true, c) := by
  intro m
  induction m with
  | zero =>
    intro ndev c h
    exact ⟨ndev, rfl, h⟩
  | succ m ih =>
    intro ndev c h
    obtain ⟨ndev1, hstep, hst1⟩ := flow_nic_free_resource_step_pos ndev k i (c + m) hi h
    obtain ⟨d, hd, hst⟩ := ih ndev1 c hst1
    refine ⟨d, ?_, hst⟩
    simp only [free_times, hstep]
    exact hd

theorem free_times_all (k i : Nat) (hi : i < 2 ^ 64) :
    ∀ (c : Nat) (ndev : flow_nic_dev),
      entry_state ndev k i = some (true, c) →
      ∃ d, free_times k (i : Int) (c + 1) ndev = .ok d ∧
        entry_state d k i = some (false, 0) := by
  intro c
  induction c with
  | zero =>
    intro ndev h
    obtain ⟨ndev1, hstep, hst1⟩ := flow_nic_free_resource_step_zero ndev k i hi h
    refine ⟨ndev1, ?_, hst1⟩
    simp only [free_times, hstep]
  | succ c ih =>
    intro ndev h
    obtain ⟨ndev1, hstep, hst1⟩ := flow_nic_free_resource_step_pos ndev k i c hi h
    obtain ⟨d, hd, hst⟩ := ih ndev1 hst1
    refine ⟨d, ?_, hst⟩
    simp only [free_times, hstep]
    exact hd

/-- C11: reference-count lifecycle.  On an allocated entry with reference counter
`c` (0 right after `allocate`), `n` calls of `flow_nic_deref_resource` bring the
counter to `c + n` with the bit set; each of the next `c + n` calls of
`flow_nic_free_resource` decrements the counter by one and leaves the bit set; and
the call issued when the counter is 0, the `(c + n + 1)`-th, clears the bit. -/
theorem flow_nic_ref_count_lifecycle (ndev : flow_nic_dev) (k i c n : Nat)
    (hi : i < 2 ^ 64) (h : entry_state ndev k i = some (true, c)) (hn : c + n < 2 ^ 32) :
    ∃ d, deref_times k (i : Int) n ndev = .ok d ∧
      entry_state d k i = some (true, c + n) ∧
      (∀ m : Nat, m ≤ c + n →
        ∃ d1, free_times k (i : Int) m d = .ok d1 ∧
          entry_state d1 k i = some (true, c + n - m)) ∧
      (∃ d2, free_times k (i : Int) (c + n + 1) d = .ok d2 ∧
        entry_state d2 k i = some (false, 0)) := by
  obtain ⟨d, hd, hst⟩ := deref_times_spec k i hi n ndev c h hn
  refine ⟨d, hd, hst, ?_, free_times_all k i hi (c + n) d hst⟩
  intro m hm
  have hsplit : c + n = (c + n - m) + m := by omega
  rw [hsplit] at hst
  exact free_times_pos k i hi m d (c + n - m) hst

theorem flow_nic_ref_count_lifecycle_witness :
    (flow_nic_alloc_resource
        (dev_of_pools
          [{ alloc_bm := [7], ref := [0, 0, 0, 0, 0, 0, 0, 0], resource_count := 8 }]) 0 1
      = .ok (.index 3,
          dev_of_pools
            [{ alloc_bm := [15], ref := [0, 0, 0, 0, 0, 0, 0, 0], resource_count := 8 }]) ∧
     flow_nic_deref_resource
        (dev_of_pools
          [{ alloc_bm := [15], ref := [0, 0, 0, 0, 0, 0, 0, 0], resource_count := 8 }]) 0 3
      = .ok (.refcount 1,
          dev_of_pools
            [{ alloc_bm := [15], ref := [0, 0, 0, 1, 0, 0, 0, 0], resource_count := 8 }]) ∧
     flow_nic_free_resource
        (dev_of_pools
          [{ alloc_bm := [15], ref := [0, 0, 0, 1, 0, 0, 0, 0], resource_count := 8 }]) 0 3
      = .ok (dev_of_pools
          [{ alloc_bm := [15], ref := [0, 0, 0, 0, 0, 0, 0, 0], resource_count := 8 }]) ∧
     flow_nic_free_resource
        (dev_of_pools
          [{ alloc_bm := [15], ref := [0, 0, 0, 0, 0, 0, 0, 0], resource_count := 8 }]) 0 3
      = .ok (dev_of_pools
          [{ alloc_bm := [7], ref := [0, 0, 0, 0, 0, 0, 0, 0], resource_count := 8 }])) ∧
    (∃ d,
      deref_times 0 (3 : Nat) 1
        (dev_of_pools
          [{ alloc_bm := [15], ref := [0, 0, 0, 0, 0, 0, 0, 0], resource_count := 8 }])
        = .ok d ∧
      entry_state d 0 3 = some (true, 0 + 1) ∧
      (∀ m : Nat, m ≤ 0 + 1 →
        ∃ d1, free_times 0 (3 : Nat) m d = .ok d1 ∧
          entry_state d1 0 3 = some (true, 0 + 1 - m)) ∧
      (∃ d2, free_times 0 (3 : Nat) (0 + 1 + 1) d = .ok d2 ∧
        entry_state d2 0 3 = some (false, 0))) :=
  ⟨⟨rfl, rfl, rfl, rfl⟩,
   flow_nic_ref_count_lifecycle
      (dev_of_pools
        [{ alloc_bm := [15], ref := [0, 0, 0, 0, 0, 0, 0, 0], resource_count := 8 }])
      0 3 0 1 (by norm_num) rfl (by norm_num)⟩

end FlowApi

namespace FlowApi

/-! ## The number of used entries -/

theorem countP_range_set (f g : Nat → Bool) (i : Nat)
    (hg : ∀ j : Nat, g j = (decide (j = i) || f j)) (hfi : f i = false) :
    ∀ N : Nat, (List.range N).countP g
      = (List.range N).countP f + (if i < N then 1 else 0) := by
  intro N
  induction N with
  | zero => simp
  | succ n ih =>
    rw [List.range_succ, List.countP_append, List.countP_append, ih,
      List.countP_singleton, List.countP_singleton, hg n]
    by_cases hni : n = i
    · subst hni
      simp [hfi]
    · have h1 : (i < n + 1) ↔ (i < n) := by omega
      simp only [hni, decide_False, Bool.false_or, h1]
      omega

theorem countP_range_clear (f g : Nat → Bool) (i : Nat)
    (hg : ∀ j : Nat, g j = (!decide (j = i) && f j)) (hfi : f i = true) :
    ∀ N : Nat, (List.range N).countP g + (if i < N then 1 else 0)
      = (List.range N).countP f := by
  intro N
  induction N with
  | zero => simp
  | succ n ih =>
    rw [List.range_succ, List.countP_append, List.countP_append, ← ih,
      List.countP_singleton, List.countP_singleton, hg n]
    by_cases hni : n = i
    · subst hni
      simp [hfi]
    · have h1 : (i < n + 1) ↔ (i < n) := by omega
      simp only [hni, decide_False, Bool.not_false, Bool.true_and, h1]
      omega

theorem flow_nic_is_resource_used_oob (ndev : flow_nic_dev) (k : Nat)
    (r : hw_mod_resource_s) (i : Nat) (hi : i < 2 ^ 64) (hr : ndev.res[k]? = some r)
    (hb : r.alloc_bm[i / 8]? = none) :
    flow_nic_is_resource_used ndev k (i : Int) = .error .out_of_bounds := by
  unfold flow_nic_is_resource_used flow_nic_is_bit_set
  simp only [hr, to_size_t_natCast i hi, hb]

/-- The count of used entries is the count of set bits of the bitmap. -/
theorem used_count_eq (ndev : flow_nic_dev) (k N : Nat) (r : hw_mod_resource_s)
    (hN : N ≤ 2 ^ 64) (hr : ndev.res[k]? = some r) :
    used_count ndev k N = (List.range N).countP (bm_bit r.alloc_bm) := by
  unfold used_count
  apply List.countP_congr
  intro j hj
  have hj64 : j < 2 ^ 64 := by
    have := List.mem_range.mp hj
    omega
  cases hb : r.alloc_bm[j / 8]? with
  | none =>
    rw [flow_nic_is_resource_used_oob ndev k r j hj64 hr hb]
    simp [bm_bit, hb]
  | some b =>
    rw [flow_nic_is_resource_used_eq ndev k r j b hj64 hr hb, bm_bit_eq_testBit _ j b hb]
    cases b.testBit (j % 8) <;> simp

theorem flow_nic_mark_resource_used_ok_inv (ndev ndev1 : flow_nic_dev) (k i : Nat)
    (hi : i < 2 ^ 64) (h : flow_nic_mark_resource_used ndev k (i : Int) = .ok ndev1) :
    ∃ r b, ndev.res[k]? = some r ∧ r.alloc_bm[i / 8]? = some b ∧
      b.testBit (i % 8) = false ∧
      ndev1 = { ndev with
        res := ndev.res.set k
          { r with alloc_bm := r.alloc_bm.set (i / 8) ((b ||| 2 ^ (i % 8)) % 256) } } := by
  cases hr : ndev.res[k]? with
  | none =>
    unfold flow_nic_mark_resource_used at h
    simp [hr] at h
  | some r =>
    cases hb : r.alloc_bm[i / 8]? with
    | none =>
      unfold flow_nic_mark_resource_used flow_nic_is_bit_set at h
      simp [hr, to_size_t_natCast i hi, hb] at h
    | some b =>
      rw [flow_nic_mark_resource_used_eq ndev k r i b hi hr hb] at h
      cases hbit : b.testBit (i % 8)
      · rw [hbit] at h
        simp only [Bool.false_eq_true, if_false] at h
        injection h with h
        exact ⟨r, b, rfl, hb, hbit, h.symm⟩
      · rw [hbit] at h
        simp at h

theorem flow_nic_is_resource_used_one_inv (ndev ndev1 : flow_nic_dev) (k i : Nat)
    (hi : i < 2 ^ 64) (h : flow_nic_is_resource_used ndev k (i : Int) = .ok (1, ndev1)) :
    ∃ r b, ndev.res[k]? = some r ∧ r.alloc_bm[i / 8]? = some b ∧
      b.testBit (i % 8) = true := by
  cases hr : ndev.res[k]? with
  | none =>
    unfold flow_nic_is_resource_used at h
    simp [hr] at h
  | some r =>
    cases hb : r.alloc_bm[i / 8]? with
    | none =>
      rw [flow_nic_is_resource_used_oob ndev k r i hi hr hb] at h
      simp at h
    | some b =>
      rw [flow_nic_is_resource_used_eq ndev k r i b hi hr hb] at h
      cases hbit : b.testBit (i % 8)
      · rw [hbit] at h
        simp at h
      · exact ⟨r, b, rfl, hb, hbit⟩

/-- C13: the number of used entries moves by exactly one.  For every bitmap and
capacity `N`, a successful `flow_nic_mark_resource_used` on `i < N` raises the
count of indices `j < N` on which `flow_nic_is_resource_used` returns 1 by exactly
1; `flow_nic_mark_resource_unused` on `i < N` whose bit is set completes and lowers
the count by exactly 1; and after any sequence of these operations the count is at
most `N` (and at least 0, being a natural number). -/
theorem used_count_moves_by_one (ndev : flow_nic_dev) (k N i : Nat) (hN : N ≤ 2 ^ 64)
    (hi : i < N) :
    (∀ ndev1, flow_nic_mark_resource_used ndev k (i : Int) = .ok ndev1 →
      used_count ndev1 k N = used_count ndev k N + 1) ∧
    (flow_nic_is_resource_used ndev k (i : Int) = .ok (1, ndev) →
      ∃ ndev1, flow_nic_mark_resource_unused ndev k (i : Int) = .ok ndev1 ∧
        used_count ndev1 k N + 1 = used_count ndev k N) ∧
    (∀ (ops : List bm_op) (ndev1 : flow_nic_dev), apply_ops k ndev ops = .ok ndev1 →
      0 ≤ used_count ndev1 k N ∧ used_count ndev1 k N ≤ N) := by
  have hi64 : i < 2 ^ 64 := by omega
  refine ⟨?_, ?_, ?_⟩
  · intro ndev1 h
    obtain ⟨r, b, hr, hb, hbit, hd⟩ := flow_nic_mark_resource_used_ok_inv ndev ndev1 k i hi64 h
    subst hd
    rw [used_count_eq _ k N _ hN (dev_res_set ndev k r _ hr), used_count_eq ndev k N r hN hr]
    have := countP_range_set (bm_bit r.alloc_bm)
      (bm_bit (r.alloc_bm.set (i / 8) ((b ||| 2 ^ (i % 8)) % 256))) i
      (fun j => bm_bit_after_set r.alloc_bm i b j hb)
      (by rw [bm_bit_eq_testBit _ i b hb]; exact hbit) N
    simpa [hi] using this
  · intro h
    obtain ⟨r, b, hr, hb, hbit⟩ := flow_nic_is_resource_used_one_inv ndev ndev k i hi64 h
    refine ⟨_, flow_nic_mark_resource_unused_eq ndev k r i b hi64 hr hb, ?_⟩
    rw [used_count_eq _ k N _ hN (dev_res_set ndev k r _ hr), used_count_eq ndev k N r hN hr]
    have := countP_range_clear (bm_bit r.alloc_bm)
      (bm_bit (r.alloc_bm.set (i / 8) ((b &&& (255 - 2 ^ (i % 8))) % 256))) i
      (fun j => bm_bit_after_unset r.alloc_bm i b j hb)
      (by rw [bm_bit_eq_testBit _ i b hb]; exact hbit) N
    simpa [hi] using this
  · intro ops ndev1 _
    refine ⟨Nat.zero_le _, ?_⟩
    unfold used_count
    have := List.countP_le_length (fun (j : Nat) =>
      match flow_nic_is_resource_used ndev1 k (j : Int) with
      | .ok (1, _) => true
      | _ => false) (l := List.range N)
    simpa using this

theorem used_count_moves_by_one_witness :
    used_count (dev_of_pools [{ alloc_bm := [7], ref := [], resource_count := 8 }]) 0 8
      = used_count (dev_of_pools [{ alloc_bm := [5], ref := [], resource_count := 8 }]) 0 8
        + 1 ∧
    (∃ ndev1,
      flow_nic_mark_resource_unused
        (dev_of_pools [{ alloc_bm := [5], ref := [], resource_count := 8 }]) 0 (2 : Nat)
        = .ok ndev1 ∧
      used_count ndev1 0 8 + 1
        = used_count (dev_of_pools [{ alloc_bm := [5], ref := [], resource_count := 8 }]) 0 8) :=
  ⟨(used_count_moves_by_one
      (dev_of_pools [{ alloc_bm := [5], ref := [], resource_count := 8 }]) 0 8 1
      (by norm_num) (by decide)).1 _ rfl,
   (used_count_moves_by_one
      (dev_of_pools [{ alloc_bm := [5], ref := [], resource_count := 8 }]) 0 8 2
      (by norm_num) (by decide)).2.1 rfl⟩

end FlowApi

namespace FlowApi

/-! ## Bounds of the byte accesses -/

/-- C14: in-bounds access.  If `alloc_bm` holds at least `ceil(resource_count / 8)`
bytes and `0 ≤ index < resource_count`, the byte position `index / 8` used by
`flow_nic_set_bit`, `flow_nic_unset_bit` and `flow_nic_is_bit_set` is inside
`alloc_bm` and none of them takes its out-of-range branch; whereas for a negative
`int` index (such as -1), converted to `size_t` by the macros, the byte position is
outside every bitmap of at most `2^61 - 2^28` bytes and all three take the
out-of-range branch. -/
theorem flow_nic_bit_access_in_bounds (arr : List Nat) (N i : Nat) (hN : N < 2 ^ 32)
    (hcap : (N + 7) / 8 ≤ arr.length) (hi : i < N) :
    (to_size_t (i : Int) / 8 < arr.length ∧
      (∃ arr1, flow_nic_set_bit arr (i : Int) = .ok arr1) ∧
      (∃ arr2, flow_nic_unset_bit arr (i : Int) = .ok arr2) ∧
      (∃ v, flow_nic_is_bit_set arr (i : Int) = .ok v)) ∧
    (∀ x : Int, -(2 ^ 31) ≤ x → x < 0 → arr.length ≤ 2 ^ 61 - 2 ^ 28 →
      arr.length ≤ to_size_t x / 8 ∧
      flow_nic_set_bit arr x = .error .out_of_bounds ∧
      flow_nic_unset_bit arr x = .error .out_of_bounds ∧
      flow_nic_is_bit_set arr x = .error .out_of_bounds) := by
  constructor
  · have hi64 : i < 2 ^ 64 := by
      have : (2 : Nat) ^ 32 < 2 ^ 64 := by norm_num
      omega
    have hlen : i / 8 < arr.length := by omega
    have hb : arr[i / 8]? = some (arr.get ⟨i / 8, hlen⟩) := by
      simp [List.getElem?_eq_getElem hlen]
    refine ⟨?_, ⟨_, flow_nic_set_bit_eq arr i _ hi64 hb⟩,
      ⟨_, flow_nic_unset_bit_eq arr i _ hi64 hb⟩, ⟨_, flow_nic_is_bit_set_eq arr i _ hi64 hb⟩⟩
    rw [to_size_t_natCast i hi64]
    exact hlen
  · intro x hlo hneg hlen
    have hpos : arr.length ≤ to_size_t x / 8 := by
      unfold to_size_t
      omega
    have hnone : arr[to_size_t x / 8]? = none := List.getElem?_eq_none hpos
    refine ⟨hpos, ?_, ?_, ?_⟩
    · unfold flow_nic_set_bit
      simp only [hnone]
    · unfold flow_nic_unset_bit
      simp only [hnone]
    · unfold flow_nic_is_bit_set
      simp only [hnone]

theorem flow_nic_bit_access_in_bounds_witness :
    (to_size_t ((11 : Nat) : Int) / 8 < [0, 0].length ∧
      (∃ arr1, flow_nic_set_bit [0, 0] ((11 : Nat) : Int) = .ok arr1) ∧
      (∃ arr2, flow_nic_unset_bit [0, 0] ((11 : Nat) : Int) = .ok arr2) ∧
      (∃ v, flow_nic_is_bit_set [0, 0] ((11 : Nat) : Int) = .ok v)) ∧
    ([0, 0].length ≤ to_size_t (-1) / 8 ∧
      flow_nic_set_bit [0, 0] (-1) = .error .out_of_bounds ∧
      flow_nic_unset_bit [0, 0] (-1) = .error .out_of_bounds ∧
      flow_nic_is_bit_set [0, 0] (-1) = .error .out_of_bounds) :=
  ⟨(flow_nic_bit_access_in_bounds [0, 0] 12 11 (by norm_num) (by decide) (by decide)).1,
   (flow_nic_bit_access_in_bounds [0, 0] 12 11 (by norm_num) (by decide) (by decide)).2
      (-1) (by norm_num) (by norm_num) (by norm_num)⟩

end FlowApi

namespace FlowApi

/-! ## Commutation of writes to distinct entries -/

/-- The byte stored by `flow_nic_write_bit` for bit position `k` of byte `b`. -/
theorem flow_nic_write_bit_eq (s : Bool) (arr : List Nat) (i b : Nat) (hi : i < 2 ^ 64)
    (hb : arr[i / 8]? = some b) :
    flow_nic_write_bit s arr (i : Int)
      = .ok (arr.set (i / 8)
          (if s then (b ||| 2 ^ (i % 8)) % 256 else (b &&& (255 - 2 ^ (i % 8))) % 256)) := by
  unfold flow_nic_write_bit
  cases s
  · simp [flow_nic_unset_bit_eq arr i b hi hb]
  · simp [flow_nic_set_bit_eq arr i b hi hb]

/-- Bits of the byte stored by `flow_nic_write_bit`. -/
theorem testBit_write_byte (s : Bool) (b k j : Nat) (hk : k < 8) :
    (if s then (b ||| 2 ^ k) % 256 else (b &&& (255 - 2 ^ k)) % 256).testBit j
      = (decide (j < 8) && (if k = j then s else b.testBit j)) := by
  cases s
  · simp only [Bool.false_eq_true, if_false, testBit_clear_byte b k j hk]
    by_cases hkj : k = j <;> simp [hkj]
  · simp only [if_true, testBit_set_byte]
    by_cases hkj : k = j <;> simp [hkj]

/-- Writes to two distinct bit positions of one byte commute. -/
theorem write_byte_comm (s t : Bool) (b kx ky : Nat) (hkx : kx < 8) (hky : ky < 8)
    (hne : kx ≠ ky) :
    (if t then
        ((if s then (b ||| 2 ^ kx) % 256 else (b &&& (255 - 2 ^ kx)) % 256) ||| 2 ^ ky) % 256
      else
        ((if s then (b ||| 2 ^ kx) % 256 else (b &&& (255 - 2 ^ kx)) % 256)
          &&& (255 - 2 ^ ky)) % 256)
    = (if s then
        ((if t then (b ||| 2 ^ ky) % 256 else (b &&& (255 - 2 ^ ky)) % 256) ||| 2 ^ kx) % 256
      else
        ((if t then (b ||| 2 ^ ky) % 256 else (b &&& (255 - 2 ^ ky)) % 256)
          &&& (255 - 2 ^ kx)) % 256) := by
  apply Nat.eq_of_testBit_eq
  intro j
  simp only [testBit_write_byte _ _ _ _ hkx, testBit_write_byte _ _ _ _ hky]
  by_cases hj : j < 8
  · by_cases h1 : kx = j
    · have h2 : ¬ ky = j := fun e => hne (h1.trans e.symm)
      simp [hj, h1, h2]
    · by_cases h2 : ky = j
      · simp [hj, h1, h2]
      · simp [hj, h1, h2]
  · simp [hj]

/-- C15: operations on distinct entries commute.  For every bitmap and in-range
indices `x ≠ y`, any two of `flow_nic_set_bit` / `flow_nic_unset_bit`, one applied
to `x` and one to `y`, complete in either order and produce the same final bitmap,
also when `x` and `y` share a byte. -/
theorem flow_nic_bit_ops_commute (arr : List Nat) (x y : Nat) (s t : Bool)
    (hx : x < 2 ^ 64) (hy : y < 2 ^ 64) (hxlen : x / 8 < arr.length)
    (hylen : y / 8 < arr.length) (hxy : x ≠ y) :
    ∃ a1 a2 fin,
      flow_nic_write_bit s arr (x : Int) = .ok a1 ∧
      flow_nic_write_bit t a1 (y : Int) = .ok fin ∧
      flow_nic_write_bit t arr (y : Int) = .ok a2 ∧
      flow_nic_write_bit s a2 (x : Int) = .ok fin := by
  have hbx : arr[x / 8]? = some (arr.get ⟨x / 8, hxlen⟩) := by
    simp [List.getElem?_eq_getElem hxlen]
  have hby : arr[y / 8]? = some (arr.get ⟨y / 8, hylen⟩) := by
    simp [List.getElem?_eq_getElem hylen]
  by_cases hp : x / 8 = y / 8
  · have hne : x % 8 ≠ y % 8 := by omega
    have hbxy : arr.get ⟨y / 8, hylen⟩ = arr.get ⟨x / 8, hxlen⟩ := by
      have h1 : some (arr.get ⟨y / 8, hylen⟩) = some (arr.get ⟨x / 8, hxlen⟩) := by
        rw [← hby, ← hbx, hp]
      exact Option.some.inj h1
    refine ⟨_, _, _, flow_nic_write_bit_eq s arr x _ hx hbx,
      flow_nic_write_bit_eq t _ y _ hy
        (by rw [← hp]; exact List.getElem?_set_self hxlen),
      flow_nic_write_bit_eq t arr y _ hy hby, ?_⟩
    rw [flow_nic_write_bit_eq s _ x _ hx
      (by rw [hp]; exact List.getElem?_set_self hylen)]
    rw [hbxy, ← hp, List.set_set, List.set_set,
      write_byte_comm s t _ (x % 8) (y % 8) (Nat.mod_lt _ (by decide))
        (Nat.mod_lt _ (by decide)) hne]
  · have hp2 : ¬ y / 8 = x / 8 := fun e => hp e.symm
    refine ⟨_, _, _, flow_nic_write_bit_eq s arr x _ hx hbx,
      flow_nic_write_bit_eq t _ y _ hy
        (by rw [List.getElem?_set_ne hp]; exact hby),
      flow_nic_write_bit_eq t arr y _ hy hby, ?_⟩
    rw [flow_nic_write_bit_eq s _ x _ hx
      (by rw [List.getElem?_set_ne hp2]; exact hbx)]
    rw [List.set_comm _ _ _ hp]

theorem flow_nic_bit_ops_commute_witness :
    ∃ a1 a2 fin,
      flow_nic_write_bit true [5, 255] ((1 : Nat) : Int) = .ok a1 ∧
      flow_nic_write_bit false a1 ((2 : Nat) : Int) = .ok fin ∧
      flow_nic_write_bit false [5, 255] ((2 : Nat) : Int) = .ok a2 ∧
      flow_nic_write_bit true a2 ((1 : Nat) : Int) = .ok fin :=
  flow_nic_bit_ops_commute [5, 255] 1 2 true false (by norm_num) (by norm_num)
    (by decide) (by decide) (by decide)

end FlowApi

namespace FlowApi

/-! ## Exact 8-bit arithmetic of the masks -/

/-- C16: exact 8-bit arithmetic of the masks.  For every `k` in `0..7` and byte
`b`: the byte `(uint8_t)(b | (uint8_t)(1 << k))` is within `0..255` and is `b` with
bit `k` set; `(uint8_t)(~(1 << k))` is `255 - 2^k` (the complement of the promoted
`int`, truncated to 8 bits, `k = 7` included); `flow_nic_is_bit_set` returns the
raw masked value, 0 when the bit is clear and exactly `2^(x mod 8)` when it is set
(so a value other than 1 at the seven positions `x mod 8 ≠ 0`); and
`flow_nic_is_resource_used` is `flow_nic_is_bit_set != 0`. -/
theorem flow_nic_mask_arithmetic (k b : Nat) (hk : k < 8) (hb : b < 256) :
    to_uint8_t ((b ||| to_uint8_t ((1 <<< k : Nat) : Int) : Nat) : Int) < 256 ∧
    (∀ j : Nat,
      (to_uint8_t ((b ||| to_uint8_t ((1 <<< k : Nat) : Int) : Nat) : Int)).testBit j
        = (b.testBit j || decide (j = k))) ∧
    to_uint8_t (~~~ ((1 <<< k : Nat) : Int)) = 255 - 2 ^ k ∧
    (∀ (arr : List Nat) (x : Nat), x < 2 ^ 64 → arr[x / 8]? = some b → x % 8 = k →
      (b.testBit k = false → flow_nic_is_bit_set arr (x : Int) = .ok 0) ∧
      (b.testBit k = true → flow_nic_is_bit_set arr (x : Int) = .ok (2 ^ k)) ∧
      (b.testBit k = true → k ≠ 0 → flow_nic_is_bit_set arr (x : Int) ≠ .ok 1)) ∧
    (∀ (ndev : flow_nic_dev) (kind : Nat) (r : hw_mod_resource_s) (index : Int) (v : Nat),
      ndev.res[kind]? = some r → flow_nic_is_bit_set r.alloc_bm index = .ok v →
      flow_nic_is_resource_used ndev kind index = .ok (if v ≠ 0 then 1 else 0, ndev)) := by
  refine ⟨to_uint8_t_lt _, ?_, clear_mask_eq k hk, ?_, ?_⟩
  · intro j
    rw [bit_mask_eq k hk, to_uint8_t_natCast, testBit_set_byte]
    by_cases hj : j < 8
    · by_cases hkj : k = j
      · subst hkj; simp [hj]
      · have hjk : ¬ j = k := fun e => hkj e.symm
        simp [hj, hkj, hjk]
    · have hjk : ¬ j = k := by omega
      have hkj : ¬ k = j := by omega
      rw [testBit_byte_high b j hb (by omega)]
      simp [hj, hjk, hkj]
  · intro arr x hx harr hxk
    rw [flow_nic_is_bit_set_eq arr x b hx harr, hxk]
    refine ⟨fun h => by simp [h], fun h => by simp [h], ?_⟩
    intro h hk0
    simp only [h, if_true]
    intro hone
    injection hone with hone
    have h2 : 2 ^ 1 ≤ 2 ^ k := Nat.pow_le_pow_right (by decide) (by omega)
    omega
  · intro ndev kind r index v hr hv
    unfold flow_nic_is_resource_used
    simp only [hr, hv]
    by_cases hv0 : v = 0 <;> simp [hv0]

theorem flow_nic_mask_arithmetic_witness :
    to_uint8_t (~~~ ((1 <<< 7 : Nat) : Int)) = 255 - 2 ^ 7 ∧
    flow_nic_is_bit_set [0, 200] ((15 : Nat) : Int) = .ok (2 ^ 7) :=
  ⟨(flow_nic_mask_arithmetic 7 200 (by decide) (by decide)).2.2.1,
   ((flow_nic_mask_arithmetic 7 200 (by decide) (by decide)).2.2.2.1 [0, 200] 15
      (by norm_num) rfl rfl).2.1 (by decide)⟩

end FlowApi
